import Mathlib

/-!
Verification of the svi editor engine (src/svi.c) against its
natural-language specification.

The development is a shallow embedding: every C function that a claim
depends on is translated into an executable Lean definition over lists of
bytes (`Nat`), and the claims are settled as theorems about those
definitions.  Bytes are modelled as `Nat` (the program only stores ASCII,
and 0x09 / 0x0A / 0x00 are the only bytes treated specially).  C `int`
coordinates are modelled as `Int`, C `size_t` quantities as `Nat`;
conversions `(size_t)x` on the few paths where they matter are made
explicit.
-/

namespace Svi

/-- Tab width in columns (`TAB_WIDTH` in svi.c, fixed at 8). -/
def TAB_WIDTH : Nat := 8

/-- `BUF_SIZE_INCREMENT` in svi.c: rows added to a too-small buffer. -/
def BUF_SIZE_INCREMENT : Nat := 16

/-- `ROW_SIZE_INCREMENT` in svi.c: columns added to a too-small row. -/
def ROW_SIZE_INCREMENT : Nat := 64

/-- `CMD_SIZE_INCREMENT` in svi.c. -/
def CMD_SIZE_INCREMENT : Nat := 16

/-- `INITIAL_ROW_SIZE` in svi.c. -/
def INITIAL_ROW_SIZE : Nat := 128

/-- `FILE_BUFFER_ROWS` in svi.c: initial slot count for a buffer read from a
file. -/
def FILE_BUFFER_ROWS : Nat := 128

/-- `FILE_BUF_SIZE_INCR` in svi.c. -/
def FILE_BUF_SIZE_INCR : Nat := 256

/-!
## Rows (`struct row`, svi.c lines 268-272)

A C row is a heap byte array `s` with logical length `len`, capacity
`size` and a cached tab count `tabs`.  The program maintains a NUL
terminator at `s[len]` (checked below for every operation that builds or
edits a row).  We model the logical content `s[0..len)` as `s : List Nat`
(so `len` is `s.length`), and the terminator through `rowByte`, which
yields 0 one past the end.  The capacity field and the
`erealloc`-on-growth steps change only the allocation, never the content,
so they have no counterpart in the model; the `size_increment` parameters
are kept in the signatures for fidelity.
-/

/-- A row of the buffer: logical content bytes plus the cached tab count. -/
structure Row where
  s : List Nat
  tabs : Nat
deriving DecidableEq, Repr

/-- Logical length of a row (the `len` field of `struct row`). -/
def Row.len (r : Row) : Nat := r.s.length

/-- Read `r->s[i]` for `i ≤ len`: a content byte for `i < len`, and the NUL
terminator 0 at `i = len` (the program keeps `s[len] = 0` at all times). -/
def rowByte (r : Row) (i : Nat) : Nat := r.s.getD i 0

/-- `count_tabs(s, l)` (svi.c lines 851-860): the number of 0x09 bytes. -/
def count_tabs (s : List Nat) : Nat := s.count 9

/-- `row_insertchar(row, c, index, size_increment)` (svi.c lines 866-902).
If `index > len` it is clamped to `len`; the byte `c` is inserted at the
(clamped) index — the two C branches (append at the end / `memmove` the
tail right by one) both amount to insertion at `index`; `tabs` is bumped
when `c` is a tab.  The capacity growth branch only reallocates. -/
def row_insertchar (r : Row) (c : Nat) (index : Nat)
    (size_increment : Nat) : Row :=
  let _ := size_increment
  let index := min index r.s.length
  { s := r.s.take index ++ c :: r.s.drop index,
    tabs := r.tabs + (if c = 9 then 1 else 0) }

/-- `row_removechar(row, index)` (svi.c lines 904-934).  A no-op when
`len == 0`.  Otherwise the C code clamps `index > len` to `len` (not to
`len - 1`), reads `c = s[index]` — which for `index = len` is the NUL
terminator, not a content byte — then either NUL-truncates the last byte
(`index = len - 1`) or `memmove`s `s[index+1 .. len]` down one place, and
decrements `len`; for `index = len` the `memmove` moves zero bytes, so the
decrement silently drops the last content byte.  The new content is in
every case the first `len - 1` bytes of the post-move array, which is
`(take index ++ drop (index+1)).take (len - 1)`.  `tabs` is decremented
exactly when the byte read as `c` is a tab (the C decrement is on a
`size_t` and would wrap below zero; that path needs `tabs = 0` with an
actual tab at `s[index]`, which the tab-count invariant rules out, and no
theorem below applies the definition there). -/
def row_removechar (r : Row) (index : Nat) : Row :=
  if r.s.length = 0 then r
  else
    let index := min index r.s.length
    let c := rowByte r index
    { s := (r.s.take index ++ r.s.drop (index + 1)).take (r.s.length - 1),
      tabs := if c = 9 then r.tabs - 1 else r.tabs }

/-- The tab-count cache is correct for a row: `tabs` equals the number of
0x09 bytes in the content (spec §3, Row invariant). -/
def Row.tabsOk (r : Row) : Prop := r.tabs = count_tabs r.s

/-!
## Buffers (`struct buf`, svi.c lines 274-277)

A buffer is an array `b` of `size` row pointers, of which the first `len`
are in use; a NULL pointer is an empty slot.  We model the pointer array
as `slots : List (Option Row)` (so `size` is `slots.length`) and `len`
as a field.  Reads `buf->b[i]` are modelled with `getD i none`; the C
code performs them without a bounds check, and every theorem below only
exercises in-bounds reads.
-/

/-- A buffer: the slot array (`b`, of length `size`) and the logical line
count `len`. -/
structure Buf where
  slots : List (Option Row)
  len : Nat
deriving DecidableEq, Repr

/-- `ROUNDUPTO(x, multiple)` (svi.c line 215). -/
def ROUNDUPTO (x multiple : Nat) : Nat := ((x + multiple - 1) / multiple) * multiple

/-- `(size_t)i` for a C `int` value modelled as `Int` (LP64: 64-bit
`size_t`, two-complement conversion). -/
def castSize (i : Int) : Nat := (i % ((2 : Int) ^ 64)).toNat

/-- `buf_create(buf, size)` (svi.c lines 979-986): `calloc`ed slots (all
NULL) and `len = 1`. -/
def buf_create (size : Nat) : Buf :=
  { slots := List.replicate size none, len := 1 }

/-- `buf_elem_len(buf, elem)` (svi.c lines 988-996): 0 for an empty slot,
else the row length.  The C read `buf->b[elem]` has no bounds check;
out-of-range reads (undefined behaviour in C) are modelled as `none`. -/
def buf_elem_len (b : Buf) (elem : Nat) : Nat :=
  match b.slots.getD elem none with
  | none => 0
  | some r => r.s.length

/-- `buf_elem_visual_len(buf, elem)` (svi.c lines 998-1013): 0 for an empty
slot; else `len` when the row has no tabs, and
`(len - tabs) + tabs * TAB_WIDTH` otherwise (the subtraction is on
`size_t`; it cannot wrap when the tab-count invariant holds, which every
theorem below assumes where this definition is applied). -/
def buf_elem_visual_len (b : Buf) (elem : Nat) : Nat :=
  match b.slots.getD elem none with
  | none => 0
  | some r =>
      if r.tabs = 0 then r.s.length
      else (r.s.length - r.tabs) + r.tabs * TAB_WIDTH

/-- The descending scan in `buf_resize` (svi.c lines 1044-1046):
`buf->len = size - 1; while (buf->len && !buf->b[buf->len]) --buf->len;`
`shrink_scan slots m` is the final `len` when the scan starts at `m`:
the largest index `j ≤ m` with `slots[j]` non-NULL, or 0 when there is
none.  Note the result is the index of the last non-empty slot, not that
index plus one. -/
def shrink_scan (slots : List (Option Row)) : Nat → Nat
  | 0 => 0
  | n + 1 => if (slots.getD (n + 1) none).isSome then n + 1 else shrink_scan slots n

/-- `buf_resize(buf, size)` (svi.c lines 1029-1060).  Identity when `size`
equals the current `size`.  When shrinking, the rows at indices
`[size, oldsize)` are freed and, if `len > size`, `len` is set to
`size - 1` and scanned down to a non-NULL slot (`shrink_scan`); then the
array is truncated.  When growing, the array is extended with NULL
slots and `len` is unchanged.  (The caller never passes `size = 0`; on
that input the C `size - 1` would wrap.) -/
def buf_resize (b : Buf) (size : Nat) : Buf :=
  if size = b.slots.length then b
  else
    { slots :=
        if size < b.slots.length then b.slots.take size
        else b.slots ++ List.replicate (size - b.slots.length) none,
      len :=
        if size < b.slots.length ∧ b.len > size then shrink_scan b.slots (size - 1)
        else b.len }

/-- `buf_shift_down(buf, start_index, size_increment)` (svi.c lines
1062-1080).  Grows the array by `size_increment` when `len + 1 > size`;
then `memmove(&b[start_index + 1], &b[start_index], (len - start_index) *
sizeof ptr)` copies slots `[start_index, len)` one place right — element
`i` of the result is the old element `i - 1` exactly when
`start_index + 1 ≤ i ≤ len` — and `len` is incremented.  Slot
`start_index` keeps its old (stale) value: the caller assigns it.
(For `start_index > len` the C `size_t` count would wrap: undefined
behaviour, never exercised.) -/
def buf_shift_down (b : Buf) (start_index : Nat) (size_increment : Nat) : Buf :=
  let b1 := if b.len + 1 > b.slots.length then buf_resize b (b.slots.length + size_increment) else b
  { slots := (List.range b1.slots.length).map (fun i =>
      if start_index + 1 ≤ i ∧ i ≤ b1.len then b1.slots.getD (i - 1) none
      else b1.slots.getD i none),
    len := b1.len + 1 }

/-- `buf_shift_up(buf, start_index)` (svi.c lines 1082-1096).
`memmove(&b[start_index - 1], &b[start_index], (len - start_index) *
sizeof ptr)` copies slots `[start_index, len)` one place left: in-array
element `i` of the result is the old element `i + 1` exactly when
`start_index ≤ i + 1 < len` (for `start_index = 0` the destination of the
first copied element is index `-1`, before the array — see
`shift_up_write_targets`; the in-array effect is then the same index set
as for `start_index = 1`).  Afterwards `buf->b[--buf->len] = NULL`.
(The function is never called with `len = 0`, where the C decrement
would wrap.) -/
def buf_shift_up (b : Buf) (start_index : Nat) : Buf :=
  { slots := ((List.range b.slots.length).map (fun i =>
      if start_index ≤ i + 1 ∧ i + 1 < b.len then b.slots.getD (i + 1) none
      else b.slots.getD i none)).set (b.len - 1) none,
    len := b.len - 1 }

/-- The destinations written by `buf_shift_up`, as offsets (in elements)
from the base of the slot array: the `memmove` writes
`start_index - 1 + k` for `k < len - start_index` — computed in pointer
arithmetic, so `start_index = 0` makes the first destination `-1` — plus
the final NULL store at `len - 1`. -/
def shift_up_write_targets (len start_index : Nat) : List Int :=
  ((List.range (len - start_index)).map (fun k => (start_index : Int) - 1 + k))
    ++ [(len : Int) - 1]

/-- A caller storing a row pointer into a slot (e.g. svi.c lines 1604 and
1633: `st->buf.b[y + 1] = ...` after a `buf_shift_down`). -/
def buf_set_slot (b : Buf) (elem : Nat) (v : Option Row) : Buf :=
  { b with slots := b.slots.set elem v }

/-- `buf_char_insert(buf, elem, c, index)` (svi.c lines 940-969).  Resizes
when `elem ≥ size` (to `ROUNDUPTO` of `elem`, or of `elem + 1` when
`elem` is already a multiple of the increment); extends `len` to
`elem + 1` when `elem ≥ len`; creates a fresh one-byte row (ignoring
`index`) when the slot is NULL, else delegates to `row_insertchar`. -/
def buf_char_insert (b : Buf) (elem : Nat) (c : Nat) (index : Nat) : Buf :=
  let b1 :=
    if elem ≥ b.slots.length then
      buf_resize b (ROUNDUPTO (if elem % BUF_SIZE_INCREMENT = 0 then elem + 1 else elem)
        BUF_SIZE_INCREMENT)
    else b
  let b2 := if elem ≥ b1.len then { b1 with len := elem + 1 } else b1
  match b2.slots.getD elem none with
  | none =>
      buf_set_slot b2 elem (some { s := [c], tabs := if c = 9 then 1 else 0 })
  | some r =>
      buf_set_slot b2 elem (some (row_insertchar r c index ROW_SIZE_INCREMENT))

/-- `buf_char_remove(buf, elem, index)` (svi.c lines 971-977): delegates to
`row_removechar` when `elem < size` and the slot is non-NULL. -/
def buf_char_remove (b : Buf) (elem : Nat) (index : Nat) : Buf :=
  if elem < b.slots.length then
    match b.slots.getD elem none with
    | none => b
    | some r => buf_set_slot b elem (some (row_removechar r index))
  else b

/-- `BUF_ELEM_NOTEMPTY(buf, elem)` (svi.c lines 211-212): `elem` (a C
`int`, converted to `size_t`) is within `size` and `len`, the slot is
non-NULL and the row is non-empty. -/
def BUF_ELEM_NOTEMPTY (b : Buf) (elem : Int) : Bool :=
  let e := castSize elem
  decide (e < b.slots.length) && decide (e < b.len) &&
    (match b.slots.getD e none with
     | none => false
     | some r => decide (0 < r.s.length))

/-- Modelled from the spec (§4.2 and §9a, for comparison with
`buf_resize`): after a shrinking resize the spec requires
`len = last non-empty slot index + 1`, or 0 when all remaining slots are
empty. -/
def spec_shrunk_len (slots : List (Option Row)) (new_cap : Nat) : Nat :=
  (List.range new_cap).foldl
    (fun acc i => if (slots.getD i none).isSome then i + 1 else acc) 0

/-!
## File codec (svi.c lines 1102-1199)

`buf_write` emits, for each slot below `len`, the row bytes (nothing for
a NULL slot) followed by one newline byte; the `iovec` batching
(`iov_write`) only groups consecutive byte segments into bounded
`writev` calls, in order, and the buffer is not modified between
batches, so the bytes reaching the file are exactly the concatenation of
the segments.  `buf_write_bytes` is that byte sequence; the
open/create/close failure paths return errors before any byte is
modelled.

`buf_from_file` reads lines with `getline` — each returned chunk ends
with the newline byte, except a final partial line at end of file — and
stores every line (after measuring with `strlen`, which stops at the
first NUL, and stripping one trailing newline) as a present row, growing
the slot array on the way exactly as the C loop does; afterwards
`len` is the number of lines read.
-/

/-- One `getline` pass over a whole byte sequence: the chunks, each ending
in the newline byte 10, except a trailing chunk without one at end of
file.  (Structured as a left-to-right scan; `getline_split (l ++ [10] ++
rest) = (l ++ [10]) :: getline_split rest` for newline-free `l`.) -/
def getline_split : List Nat → List (List Nat)
  | [] => []
  | x :: bs =>
    if x = 10 then [10] :: getline_split bs
    else
      match getline_split bs with
      | [] => [[x]]
      | l :: ls => (x :: l) :: ls

/-- One iteration body of the read loop, lines 1132-1139: `l = strlen(s)`
(stops at the first NUL byte); strip one trailing newline; store the
bytes as the row content with its tab count (`count_tabs(s, l)`). -/
def load_row (line : List Nat) : Row :=
  let l := (line.takeWhile (fun b => b ≠ 0)).length
  let l2 := if 0 < l ∧ line.getD (l - 1) 0 = 10 then l - 1 else l
  { s := line.take l2, tabs := count_tabs (line.take l2) }

/-- The capacity check at the top of the read loop, lines 1115-1121:
when `elem ≥ size`, resize to `ROUNDUPTO` of `elem` (of `elem + 1` when
`elem` is a multiple of `FILE_BUF_SIZE_INCR`). -/
def file_grow (b : Buf) (elem : Nat) : Buf :=
  if elem ≥ b.slots.length then
    buf_resize b (ROUNDUPTO (if elem % FILE_BUF_SIZE_INCR = 0 then elem + 1 else elem)
      FILE_BUF_SIZE_INCR)
  else b

/-- The content a slot contributes to the written file: the row bytes, or
nothing for a NULL slot. -/
def slot_content (o : Option Row) : List Nat :=
  match o with
  | none => []
  | some r => r.s

/-- `buf_write(buf, filename, overwrite)` (lines 1146-1181), abstracted to
the bytes it sends to the file: for each `i < len`, the row bytes (if the
slot is present) and a single newline. -/
def buf_write_bytes (b : Buf) : List Nat :=
  ((List.range b.len).map (fun i => slot_content (b.slots.getD i none) ++ [10])).flatten

/-- One iteration of the `buf_from_file` loop at slot index `acc.2`:
grow if needed, store the loaded row, advance the index. -/
def file_load_step (acc : Buf × Nat) (line : List Nat) : Buf × Nat :=
  (buf_set_slot (file_grow acc.1 acc.2) acc.2 (some (load_row line)), acc.2 + 1)

/-- `buf_from_file(buf, filename)` (lines 1102-1144), abstracted over the
file bytes: create a `FILE_BUFFER_ROWS`-slot buffer, load each line in
turn (the loop also runs its capacity check once more on the iteration
where `getline` hits end of file, before breaking), and set `len` to the
number of lines read. -/
def buf_from_file_bytes (file : List Nat) : Buf :=
  let lines := getline_split file
  let bfold := (lines.foldl file_load_step (buf_create FILE_BUFFER_ROWS, 0)).1
  { file_grow bfold lines.length with len := lines.length }

/-- Modelled from the spec (§8, round-trip law, for comparison): two slots
are equal in the sense of the claim when both are empty or both hold rows
with identical content bytes. -/
def spec_slot_equal (a b : Option Row) : Prop :=
  (a = none ∧ b = none) ∨ (∃ ra rb, a = some ra ∧ b = some rb ∧ ra.s = rb.s)

/-!
## Editor state (`struct state`, svi.c lines 279-297) and key events

The terminal event type (`struct term_event`): `ch` carries the character
for `Ctrl` and `Char` keys.  `ch` is a C `char`, which is signed on the
reference platforms, hence `Int`; the decoder fills it only for
`ctrl`/`char` (for other keys the C struct retains a stale value that no
handler reads; the model uses 0).
-/

inductive TermKey
  | esc | arrowUp | arrowDown | arrowRight | arrowLeft
  | home | endKey | insert | delete | pageUp | pageDown
  | backspace | enter | tab | ctrl | char
deriving DecidableEq, Repr

structure TermEvent where
  key : TermKey
  ch : Int
deriving DecidableEq, Repr

inductive Mode
  | normal | insert | commandLine
deriving DecidableEq, Repr

/-- `struct state` minus the transient `ev` field (the current event is
passed to the handlers explicitly).  `name` is the file name bytes. -/
structure EdState where
  buf : Buf
  cmd : Row
  w : Int
  h : Int
  x : Int
  y : Int
  tx : Int
  ty : Int
  mode : Mode
  storedtx : Int
  name : Option (List Nat)
  name_needs_free : Bool
  modified : Bool
  written : Bool
  done : Bool
deriving DecidableEq, Repr

/-- `buf->b[i]` for a C `int` index (converted through `size_t`). -/
def buf_slot (b : Buf) (i : Int) : Option Row := b.slots.getD (castSize i) none

/-- `buf->b[y]->s[x]`: the byte of row `y` at column `x` (0 past the
content models the NUL terminator; a NULL slot would be undefined
behaviour in C and is only read under guards that exclude it). -/
def row_byte_at (b : Buf) (y x : Int) : Nat :=
  match buf_slot b y with
  | none => 0
  | some r => r.s.getD (castSize x) 0

/-- The content of the row the cursor is on. -/
def content_at (st : EdState) : List Nat := slot_content (buf_slot st.buf st.y)

/-- Visual width of one byte: `TAB_WIDTH` for a tab, 1 otherwise
(spec §3, invariant 4). -/
def visual_width (c : Nat) : Nat := if c = 9 then TAB_WIDTH else 1

/-- `visual_col(l, x)`: the on-screen column of byte offset `x`, the sum
of the visual widths of the first `x` bytes (spec §3, invariant 4). -/
def visual_col (l : List Nat) (x : Nat) : Nat := ((l.take x).map visual_width).sum

/-- The claimed cursor invariant (spec §8): `0 ≤ x ≤ row_len(y)` and
`tx == visual_col(y, x)`. -/
def cursor_ok (st : EdState) : Prop :=
  0 ≤ st.x ∧ st.x.toNat ≤ (content_at st).length ∧
  st.tx = (visual_col (content_at st) st.x.toNat : Int)

/-- The structural well-formedness the event loop maintains (spec §3):
at least one line, `len` within capacity, cursor line in range, slots at
and beyond `len` empty, tab caches correct, usable screen height, and
machine-representability (coordinates are C `int`, sizes fit in memory:
every quantity stays far below `2^31`, so the `size_t` conversions do
not wrap). -/
def state_wf (st : EdState) : Prop :=
  1 ≤ st.buf.len ∧ st.buf.len ≤ st.buf.slots.length ∧
  0 ≤ st.y ∧ st.y.toNat < st.buf.len ∧
  (∀ i, st.buf.len ≤ i → st.buf.slots.getD i none = none) ∧
  (∀ i r, st.buf.slots.getD i none = some r → r.tabsOk) ∧
  2 ≤ st.h ∧
  st.buf.slots.length < 2 ^ 31 ∧
  (∀ i r, st.buf.slots.getD i none = some r → r.s.length < 2 ^ 31)

/-- Events as the decoder produces them: a `Char` event always carries a
printable 7-bit character (see `readkey`). -/
def validEvent (ev : TermEvent) : Prop :=
  ev.key = TermKey.char → 32 ≤ ev.ch ∧ ev.ch ≤ 126

/-!
## Movement (svi.c lines 1205-1423)

Each motion is the state transformation of the corresponding C function;
the `term_set_cursor` / `redraw` calls only repaint the terminal and are
dropped.
-/

/-- `cursor_fix_xpos` walk (lines 1216-1225): scan the row accumulating
visual widths until the accumulated column reaches the old `tx`;
arguments are the remaining bytes, the target `tx`, the loop index `i`
and the accumulated `valid_tx`; result is final `(i, valid_tx, found)`. -/
def fix_xpos_walk : List Nat → Int → Nat → Nat → Nat × Nat × Bool
  | [], _, i, acc => (i, acc, false)
  | c :: rest, target, i, acc =>
    let acc2 := acc + (if c = 9 then 8 else 1)
    if target ≤ (acc2 : Int) then (i, acc2, true)
    else fix_xpos_walk rest target (i + 1) acc2

/-- `cursor_fix_xpos(st)` (lines 1205-1233): `x = 0` forces `tx = 0`;
otherwise walk the row and set `x = i + found`, `tx = valid_tx`. -/
def cursor_fix_xpos (st : EdState) : EdState :=
  if st.x = 0 then { st with tx := 0 }
  else
    let r := fix_xpos_walk (content_at st) st.tx 0 0
    { st with x := (r.1 : Int) + (if r.2.2 then 1 else 0), tx := (r.2.1 : Int) }

/-- `cursor_up(st)` (lines 1235-1249). -/
def cursor_up (st : EdState) : EdState :=
  if st.y ≠ 0 then
    let y2 := st.y - 1
    let elen := buf_elem_len st.buf (castSize y2)
    let st := { st with y := y2 }
    let st := if elen < castSize st.x then { st with x := (elen : Int) } else st
    let st := cursor_fix_xpos st
    { st with ty := if st.ty ≠ 0 then st.ty - 1 else st.ty }
  else st

/-- `cursor_down(st)` (lines 1251-1267). -/
def cursor_down (st : EdState) : EdState :=
  if st.buf.len ≠ 0 ∧ castSize st.y < st.buf.len - 1 then
    let y2 := st.y + 1
    let elen := buf_elem_len st.buf (castSize y2)
    let st := { st with y := y2 }
    let st := if elen < castSize st.x then { st with x := (elen : Int) } else st
    let st := cursor_fix_xpos st
    { st with ty := if st.ty < st.h - 2 then st.ty + 1 else st.ty }
  else st

/-- `cursor_right(st, stopatlastchar)` (lines 1269-1283). -/
def cursor_right (st : EdState) (stopatlastchar : Bool) : EdState :=
  let l := buf_elem_len st.buf (castSize st.y)
  let l := if stopatlastchar ∧ l ≠ 0 then l - 1 else l
  if st.tx < st.w - 1 ∧ castSize st.x < l then
    { st with tx := st.tx + (if row_byte_at st.buf st.y st.x = 9 then 8 else 1),
              x := st.x + 1 }
  else st

/-- `cursor_left(st)` (lines 1285-1295). -/
def cursor_left (st : EdState) : EdState :=
  if st.x ≠ 0 then
    { st with x := st.x - 1,
              tx := st.tx - (if row_byte_at st.buf st.y (st.x - 1) = 9 then 8 else 1) }
  else st

/-- `cursor_linestart(st)` (lines 1297-1302). -/
def cursor_linestart (st : EdState) : EdState :=
  { st with x := 0, tx := 0 }

/-- `cursor_lineend(st, stopbeforelastchar)` (lines 1304-1316). -/
def cursor_lineend (st : EdState) (stopbeforelastchar : Bool) : EdState :=
  let x2 : Int := (buf_elem_len st.buf (castSize st.y) : Int)
  let tx2 : Int := (buf_elem_visual_len st.buf (castSize st.y) : Int)
  if stopbeforelastchar ∧ x2 ≠ 0 then
    { st with x := x2 - 1,
              tx := tx2 - (if row_byte_at st.buf st.y (x2 - 1) = 9 then 8 else 1) }
  else
    { st with x := x2, tx := tx2 }

/-- `cursor_startnextrow(st, stripextranewline)` (lines 1318-1336); the
flag only changes the emitted scroll sequence. -/
def cursor_startnextrow (st : EdState) (stripextranewline : Bool) : EdState :=
  let _ := stripextranewline
  if st.buf.len ≠ 0 ∧ castSize st.y < st.buf.len - 1 then
    { st with y := st.y + 1, x := 0, tx := 0,
              ty := if st.ty < st.h - 2 then st.ty + 1 else st.ty }
  else st

/-- `cursor_endpreviousrow(st)` (lines 1338-1350). -/
def cursor_endpreviousrow (st : EdState) : EdState :=
  if st.y ≠ 0 then
    let y2 := st.y - 1
    { st with y := y2,
              x := (buf_elem_len st.buf (castSize y2) : Int),
              tx := (buf_elem_visual_len st.buf (castSize y2) : Int),
              ty := if st.ty ≠ 0 then st.ty - 1 else st.ty }
  else st

/-- `cursor_nonblank` walk (lines 1358-1365): advance over blanks —
`isblank` accepts space and tab — accumulating visual widths; result is
the final `(x, tx)`. -/
def nonblank_walk : List Nat → Nat → Nat → Nat × Nat
  | [], x, tx => (x, tx)
  | c :: rest, x, tx =>
    if c = 32 ∨ c = 9 then
      nonblank_walk rest (x + 1) (tx + (if c = 9 then TAB_WIDTH else 1))
    else (x, tx)

/-- `cursor_nonblank(st)` (lines 1352-1374): first non-blank byte, or the
last byte when the row is all blanks. -/
def cursor_nonblank (st : EdState) : EdState :=
  if BUF_ELEM_NOTEMPTY st.buf st.y then
    let l := slot_content (buf_slot st.buf st.y)
    let r := nonblank_walk l 0 0
    if r.1 = l.length then
      { st with x := (r.1 : Int) - 1,
                tx := (r.2 : Int) - (if l.getD (r.1 - 1) 0 = 9 then 8 else 1) }
    else
      { st with x := (r.1 : Int), tx := (r.2 : Int) }
  else st

/-- `cursor_up_page(st)` (lines 1376-1401). -/
def cursor_up_page (st : EdState) : EdState :=
  if 0 < st.y - st.ty then
    let y2 := st.y - (st.h - 3)
    let y2 := if y2 < st.h - 2 then st.h - 2 else y2
    let elen := buf_elem_len st.buf (castSize y2)
    let st := { st with y := y2 }
    let st := if elen < castSize st.x then { st with x := (elen : Int) } else st
    let st := cursor_fix_xpos st
    { st with ty := st.h - 2 }
  else st

/-- `cursor_down_page(st)` (lines 1403-1423). -/
def cursor_down_page (st : EdState) : EdState :=
  if st.buf.len ≠ 0 ∧ castSize st.y < st.buf.len - 1 then
    let y2 := st.y + (st.h - 3)
    let y2 := if st.buf.len - 1 < castSize y2 then ((st.buf.len : Int) - 1) else y2
    let elen := buf_elem_len st.buf (castSize y2)
    let st := { st with y := y2 }
    let st := if elen < castSize st.x then { st with x := (elen : Int) } else st
    let st := cursor_fix_xpos st
    { st with ty := 0 }
  else st

/-!
## Commands (svi.c lines 1429-1543)

The command row content is a byte list without embedded NUL bytes (the
command-line handler only inserts characters `0x20..0x7e`), so C string
reads `cmd[i]` are modelled as `getD i 0`, the NUL terminator appearing
past the end.
-/

/-- `cmdarg(cmd)` (lines 1429-1443): the text after the first space, or
none when there is no space or nothing follows it. -/
def cmdarg (cmd : List Nat) : Option (List Nat) :=
  match cmd.findIdx? (fun c => c = 32) with
  | none => none
  | some i =>
    let p := cmd.drop (i + 1)
    if p.getD 0 0 ≠ 0 then some p else none

/-- `cmdchrcmp(cmd, c)` (lines 1445-1469): the command equals the single
character `c`, optionally followed by a bang, then end of string or a
space. -/
def cmdchrcmp (cmd : List Nat) (c : Nat) : Bool :=
  if cmd.getD 0 0 ≠ c then false
  else
    let e := if cmd.getD 1 0 = 33 then 2 else 1
    if cmd.getD e 0 ≠ 0 ∧ cmd.getD e 0 ≠ 32 then false else true

/-- `cmdstrcmp(cmd, s, sl)` (lines 1471-1489): as `cmdchrcmp` but against
a string (the C function returns -1 for a match; only truthiness is
used).  Faithful for patterns without NUL bytes, as in the one call site
(`"wq"`). -/
def cmdstrcmp (cmd : List Nat) (s : List Nat) : Bool :=
  if (List.range s.length).all (fun i => cmd.getD i 0 = s.getD i 0) then
    let e := if cmd.getD s.length 0 = 33 then s.length + 1 else s.length
    if cmd.getD e 0 ≠ 0 ∧ cmd.getD e 0 ≠ 32 then false else true
  else false

/-- Outcome of the one `buf_write` call `exec_cmd` may make — an
abstraction of the file system: success, `EEXIST` (exclusive create of an
existing file), or any other `errno` failure. -/
inductive WriteRes
  | ok | eexist | otherErr
deriving DecidableEq, Repr

/-- The status-row texts the command machinery prints. -/
inductive MsgText
  | bufferModified
  | fileExists
  | writeFailed
  | noFileName
  | cmdEcho (s : List Nat)
  | colonPrompt
deriving DecidableEq, Repr

/-- Observable terminal operations of the command machinery:
`term_print(x, y, color, text)` (`red` false is `COLOR_DEFAULT`),
`term_clear_row(y)`, `term_set_cursor(x, y)`. -/
inductive TermOp
  | print (x y : Int) (red : Bool) (msg : MsgText)
  | clearRow (y : Int)
  | setCursor (x y : Int)
deriving DecidableEq, Repr

/-- `exec_cmd(st)` (lines 1491-1543): returns the new state, the printed
messages and the return value (0 success, -1 error).  `wr` is the
outcome of the `buf_write` call, when one is made (the call itself
passes `overwrite = bang || st->written` and does not change the
buffer). -/
def exec_cmd (st : EdState) (wr : WriteRes) : EdState × List TermOp × Int :=
  if cmdchrcmp st.cmd.s 113 then
    -- :q || :q!
    if st.cmd.s.getD 1 0 ≠ 33 ∧ st.modified then
      (st, [TermOp.print 0 (st.h - 1) true MsgText.bufferModified], -1)
    else
      ({ st with done := true }, [], 0)
  else if cmdchrcmp st.cmd.s 119 ∨ cmdstrcmp st.cmd.s [119, 113] then
    -- :w || :w! || :wq || :wq!
    let arg := cmdarg st.cmd.s
    let name := match arg with | some a => some a | none => st.name
    let st1 := if arg.isSome ∧ st.name = none then
        { st with name := arg, name_needs_free := true }
      else st
    match name with
    | some _ =>
      if wr ≠ WriteRes.ok then
        if wr = WriteRes.eexist then
          (st1, [TermOp.print 0 (st1.h - 1) true MsgText.fileExists], -1)
        else
          (st1, [TermOp.print 0 (st1.h - 1) true MsgText.writeFailed], -1)
      else
        let st2 := { st1 with modified := false, written := true }
        let st3 := if st2.cmd.s.getD 1 0 = 113 then { st2 with done := true } else st2
        (st3, [], 0)
    | none =>
      (st1, [TermOp.print 0 (st1.h - 1) true MsgText.noFileName], -1)
  else
    (st, [], 0)

/-!
## Helper functions (svi.c lines 1549-1735)
-/

/-- `insert_newline(st)` (lines 1575-1643): split at the cursor.  Case 1:
the cursor is inside a non-empty row — split the row at `x` (the tab
counts are divided with `count_tabs` on the tail and a subtraction on
the head), shift down, place the tail row below.  Case 2: at or past the
end of the row (or the row is empty) with text below — shift down and
leave slot `y+1` empty.  Case 3: no text below — just grow `len`.
All cases end with `cursor_startnextrow(st, 1)`. -/
def insert_newline (st : EdState) : EdState :=
  let st2 :=
    if BUF_ELEM_NOTEMPTY st.buf st.y ∧
        castSize st.x < buf_elem_len st.buf (castSize st.y) then
      match buf_slot st.buf st.y with
      | none => st
      | some r =>
        let xn := castSize st.x
        let newtabs := count_tabs (r.s.drop xn)
        let b := buf_shift_down st.buf (castSize (st.y + 1)) BUF_SIZE_INCREMENT
        let b := buf_set_slot b (castSize (st.y + 1)) (some ⟨r.s.drop xn, newtabs⟩)
        let b := buf_set_slot b (castSize st.y) (some ⟨r.s.take xn, r.tabs - newtabs⟩)
        { st with buf := b }
    else if castSize st.y < st.buf.len - 1 then
      let b := buf_shift_down st.buf (castSize (st.y + 1)) BUF_SIZE_INCREMENT
      let b := buf_set_slot b (castSize (st.y + 1)) none
      { st with buf := b }
    else
      { st with buf := { st.buf with len := st.buf.len + 1 } }
  cursor_startnextrow st2 true

/-- `remove_newline(st)` (lines 1672-1735): join with the previous row;
callers guarantee `x == 0 ∧ y > 0`.  Case 1: both rows non-empty —
append the current row bytes to the previous row (the C code does not
add the current row tab count to the previous row field), place the
cursor at the old end of the previous row, shift up at `y+1`.  Case 2:
current empty, previous non-empty — cursor to the end of the previous
row, shift up at `y+1`.  Case 3: previous empty — free it and shift up
at `y` (the freed slot pointer is overwritten by the shift).  Then `y`
decreases and `ty` when possible. -/
def remove_newline (st : EdState) : EdState :=
  let st2 :=
    if BUF_ELEM_NOTEMPTY st.buf st.y ∧ BUF_ELEM_NOTEMPTY st.buf (st.y - 1) then
      match buf_slot st.buf st.y, buf_slot st.buf (st.y - 1) with
      | some cur, some prev =>
        let oldlen := prev.s.length
        let oldvlen := buf_elem_visual_len st.buf (castSize (st.y - 1))
        let b := buf_set_slot st.buf (castSize (st.y - 1))
          (some ⟨prev.s ++ cur.s, prev.tabs⟩)
        let b := buf_shift_up b (castSize (st.y + 1))
        { st with buf := b, x := (oldlen : Int), tx := (oldvlen : Int) }
      | _, _ => st
    else if BUF_ELEM_NOTEMPTY st.buf (st.y - 1) then
      let b := buf_shift_up st.buf (castSize (st.y + 1))
      { st with buf := b,
                x := (buf_elem_len st.buf (castSize (st.y - 1)) : Int),
                tx := (buf_elem_visual_len st.buf (castSize st.y - 1) : Int) }
    else
      { st with buf := buf_shift_up st.buf (castSize st.y) }
  { st2 with ty := if st2.ty ≠ 0 then st2.ty - 1 else st2.ty, y := st2.y - 1 }

/-!
## Event handling (svi.c lines 1741-2099)

The handlers below are the state transformations of the C key handlers;
terminal repaints are dropped except in `key_command_line`, whose
status-row output claims C9 and C10 talk about.
-/

/-- `key_command_line(st)` (lines 1741-1823): handle a key in
command-line mode; returns the new state and the terminal operations. -/
def key_command_line (st : EdState) (ev : TermEvent) (wr : WriteRes) :
    EdState × List TermOp :=
  match ev.key with
  | TermKey.esc =>
    ({ st with mode := Mode.normal, cmd := ⟨[], st.cmd.tabs⟩, tx := st.storedtx },
     [TermOp.clearRow (st.h - 1), TermOp.setCursor st.storedtx st.ty])
  | TermKey.arrowRight =>
    if st.tx < st.w - 1 ∧ castSize (st.tx - 1) < st.cmd.s.length then
      ({ st with tx := st.tx + 1 }, [TermOp.setCursor (st.tx + 1) (st.h - 1)])
    else (st, [])
  | TermKey.arrowLeft =>
    if 1 < st.tx then
      ({ st with tx := st.tx - 1 }, [TermOp.setCursor (st.tx - 1) (st.h - 1)])
    else (st, [])
  | TermKey.home =>
    ({ st with tx := 1 }, [TermOp.setCursor 1 (st.h - 1)])
  | TermKey.endKey =>
    ({ st with tx := (st.cmd.s.length + 1 : Int) },
     [TermOp.setCursor (st.cmd.s.length + 1 : Int) (st.h - 1)])
  | TermKey.delete =>
    if st.cmd.s.length ≠ 0 then
      let cmd2 := row_removechar st.cmd (castSize (st.tx - 1))
      ({ st with cmd := cmd2 },
       [TermOp.print 0 (st.h - 1) false (MsgText.cmdEcho cmd2.s),
        TermOp.setCursor st.tx (st.h - 1)])
    else (st, [])
  | TermKey.backspace =>
    if 1 < st.tx ∧ st.cmd.s.length ≠ 0 then
      let cmd2 := row_removechar st.cmd (castSize (st.tx - 2))
      ({ st with cmd := cmd2, tx := st.tx - 1 },
       [TermOp.print 0 (st.h - 1) false (MsgText.cmdEcho cmd2.s),
        TermOp.setCursor (st.tx - 1) (st.h - 1)])
    else (st, [])
  | TermKey.enter =>
    let r := exec_cmd st wr
    ({ r.1 with mode := Mode.normal, cmd := ⟨[], r.1.cmd.tabs⟩, tx := r.1.storedtx },
     r.2.1 ++ (if 0 ≤ r.2.2 then [TermOp.clearRow (st.h - 1)] else [])
       ++ [TermOp.setCursor r.1.storedtx r.1.y])
  | TermKey.char =>
    if st.tx ≠ 0 ∧ st.tx < st.w - 1 then
      let cmd2 := row_insertchar st.cmd ev.ch.toNat (castSize (st.tx - 1))
        CMD_SIZE_INCREMENT
      ({ st with cmd := cmd2, tx := st.tx + 1 },
       [TermOp.print 0 (st.h - 1) false (MsgText.cmdEcho cmd2.s),
        TermOp.setCursor (st.tx + 1) (st.h - 1)])
    else (st, [])
  | _ => (st, [])

/-- `key_insert(st)` (lines 1825-1921): handle a key in insert mode. -/
def key_insert (st : EdState) (ev : TermEvent) : EdState :=
  match ev.key with
  | TermKey.esc => { st with mode := Mode.normal }
  | TermKey.arrowUp => cursor_up st
  | TermKey.arrowDown => cursor_down st
  | TermKey.arrowRight => cursor_right st true
  | TermKey.arrowLeft => cursor_left st
  | TermKey.home => cursor_linestart st
  | TermKey.endKey => cursor_lineend st true
  | TermKey.delete =>
    if BUF_ELEM_NOTEMPTY st.buf st.y then
      { st with modified := true,
                buf := buf_char_remove st.buf (castSize st.y) (castSize st.x) }
    else st
  | TermKey.pageUp => cursor_up_page st
  | TermKey.pageDown => cursor_down_page st
  | TermKey.backspace =>
    if st.x ≠ 0 ∧ BUF_ELEM_NOTEMPTY st.buf st.y then
      let st := { st with
        x := st.x - 1,
        tx := st.tx - (if row_byte_at st.buf st.y (st.x - 1) = 9 then TAB_WIDTH else 1),
        modified := true }
      { st with buf := buf_char_remove st.buf (castSize st.y) (castSize st.x) }
    else if st.x = 0 ∧ st.y ≠ 0 then
      remove_newline { st with modified := true }
    else st
  | TermKey.enter => insert_newline { st with modified := true }
  | TermKey.tab =>
    if st.tx < st.w - TAB_WIDTH then
      { st with modified := true,
                tx := st.tx + 8,
                buf := buf_char_insert st.buf (castSize st.y) 9 (castSize st.x),
                x := st.x + 1 }
    else st
  | TermKey.char =>
    if st.tx < st.w - 1 then
      { st with modified := true,
                buf := buf_char_insert st.buf (castSize st.y) ev.ch.toNat (castSize st.x),
                x := st.x + 1,
                tx := st.tx + 1 }
    else st
  | _ => st

/-- `resized(st)` (lines 2071-2099): re-measure the terminal (`sz` is the
`term_size` result, `none` meaning failure, which falls back to 80×24),
die when the height is below 2 (`none` result), redraw, then clamp `x`
and `tx` to `w - 2` and recompute `ty`. -/
def resized (st : EdState) (sz : Option (Int × Int)) : Option EdState :=
  let wh := match sz with | some wh => wh | none => ((80 : Int), (24 : Int))
  if wh.2 < 2 then none
  else
    let st := { st with w := wh.1, h := wh.2 }
    let st := if st.w - 2 < st.x then { st with x := st.w - 2 } else st
    let st := if st.w - 2 < st.tx then { st with tx := st.w - 2 } else st
    let st :=
      if st.ty < st.y ∧ st.y ≤ st.h - 2 then { st with ty := st.y }
      else if st.h - 2 < st.y then { st with ty := st.h - 2 }
      else st
    some st

/-- `key_normal(st)` (lines 1923-2069): handle a key in normal mode.
`sz` feeds the `resized` call of Ctrl-L; `none` as result models `die`.
Note the Ctrl cases compare against lowercase `b` (0x62) and `f` (0x66),
and `L` (0x4c). -/
def key_normal (st : EdState) (ev : TermEvent) (sz : Option (Int × Int)) :
    Option EdState :=
  match ev.key with
  | TermKey.arrowUp => some (cursor_up st)
  | TermKey.arrowDown => some (cursor_down st)
  | TermKey.arrowRight => some (cursor_right st true)
  | TermKey.arrowLeft => some (cursor_left st)
  | TermKey.home => some (cursor_linestart st)
  | TermKey.endKey => some (cursor_lineend st true)
  | TermKey.insert => some { st with mode := Mode.insert }
  | TermKey.delete =>
    some (if BUF_ELEM_NOTEMPTY st.buf st.y then
      { st with modified := true,
                buf := buf_char_remove st.buf (castSize st.y) (castSize st.x) }
    else st)
  | TermKey.pageUp => some (cursor_up_page st)
  | TermKey.pageDown => some (cursor_down_page st)
  | TermKey.backspace =>
    some (if st.x = 0 ∧ st.y ≠ 0 then cursor_endpreviousrow st else cursor_left st)
  | TermKey.enter => some (cursor_startnextrow st false)
  | TermKey.ctrl =>
    if ev.ch = 76 then resized st sz
    else if ev.ch = 98 then some (cursor_up_page st)
    else if ev.ch = 102 then some (cursor_down_page st)
    else some st
  | TermKey.char =>
    some (
      if ev.ch = 104 then cursor_left st
      else if ev.ch = 106 then cursor_down st
      else if ev.ch = 107 then cursor_up st
      else if ev.ch = 108 then cursor_right st true
      else if ev.ch = 48 then cursor_linestart st
      else if ev.ch = 36 then cursor_lineend st true
      else if ev.ch = 94 then cursor_nonblank st
      else if ev.ch = 105 then { st with mode := Mode.insert }
      else if ev.ch = 73 then { cursor_linestart st with mode := Mode.insert }
      else if ev.ch = 97 then { cursor_right st false with mode := Mode.insert }
      else if ev.ch = 65 then { cursor_lineend st false with mode := Mode.insert }
      else if ev.ch = 111 then
        { insert_newline { cursor_lineend st false with modified := true }
            with mode := Mode.insert }
      else if ev.ch = 79 then
        { insert_newline { cursor_endpreviousrow st with modified := true }
            with mode := Mode.insert }
      else if ev.ch = 120 then
        (if BUF_ELEM_NOTEMPTY st.buf st.y then
          { st with modified := true,
                    buf := buf_char_remove st.buf (castSize st.y) (castSize st.x) }
        else st)
      else if ev.ch = 58 then
        { st with mode := Mode.commandLine, storedtx := st.tx, tx := 1 }
      else st)
  | _ => some st

/-- The key dispatch of the main loop (lines 2150-2156): route the event
to the handler of the current mode.  `none` models `die` (only reachable
through Ctrl-L in normal mode). -/
def dispatch_key (st : EdState) (ev : TermEvent) (sz : Option (Int × Int))
    (wr : WriteRes) : Option EdState :=
  match st.mode with
  | Mode.commandLine => some (key_command_line st ev wr).1
  | Mode.insert => some (key_insert st ev)
  | Mode.normal => key_normal st ev sz

/-- `readkey(ev)` (lines 489-590) over a finite byte queue: decode one key
event, or `none` when the blocking read would wait forever.  `char` is
signed on the reference platforms, so bytes `0x80..0xff` fall into the
`c < 0x20` branch as negative values and decode as `Ctrl` of a negative
character (which no handler matches).  Unmatched escape-sequence bytes
restart the loop on the remaining queue. -/
def readkey : List Nat → Option TermEvent
  | [] => none
  | c :: rest =>
    if c = 27 then
      match rest with
      | [] => some ⟨TermKey.esc, 0⟩
      | c1 :: rest1 =>
        if c1 = 91 then
          match rest1 with
          | [] => some ⟨TermKey.esc, 0⟩
          | c2 :: rest2 =>
            if c2 = 65 then some ⟨TermKey.arrowUp, 0⟩
            else if c2 = 66 then some ⟨TermKey.arrowDown, 0⟩
            else if c2 = 67 then some ⟨TermKey.arrowRight, 0⟩
            else if c2 = 68 then some ⟨TermKey.arrowLeft, 0⟩
            else if c2 = 72 then some ⟨TermKey.home, 0⟩
            else if c2 = 70 then some ⟨TermKey.endKey, 0⟩
            else if c2 = 50 then
              match rest2 with
              | [] => none
              | c3 :: rest3 =>
                if c3 = 126 then some ⟨TermKey.insert, 0⟩ else readkey rest3
            else if c2 = 51 then
              match rest2 with
              | [] => none
              | c3 :: rest3 =>
                if c3 = 126 then some ⟨TermKey.delete, 0⟩ else readkey rest3
            else if c2 = 53 then
              match rest2 with
              | [] => none
              | c3 :: rest3 =>
                if c3 = 126 then some ⟨TermKey.pageUp, 0⟩ else readkey rest3
            else if c2 = 54 then
              match rest2 with
              | [] => none
              | c3 :: rest3 =>
                if c3 = 126 then some ⟨TermKey.pageDown, 0⟩ else readkey rest3
            else readkey rest2
        else some ⟨TermKey.esc, 0⟩
    else if c = 127 then some ⟨TermKey.backspace, 0⟩
    else if c = 13 then some ⟨TermKey.enter, 0⟩
    else if c = 9 then some ⟨TermKey.tab, 0⟩
    else
      let sc : Int := if c < 128 then (c : Int) else (c : Int) - 256
      if sc < 32 then some ⟨TermKey.ctrl, sc + 64⟩
      else if sc < 127 then some ⟨TermKey.char, sc⟩
      else readkey rest

/-!
## Concrete editor states used by the claim theorems

Small states over singleton or empty buffers; each is well-formed (shown
where a theorem needs it) and drives one claim's witness or counterexample.
-/

def c1demoRow : Row := { s := [], tabs := 0 }

def c1demo : EdState :=
  { buf := { slots := [some c1demoRow], len := 1 }, cmd := { s := [], tabs := 0 },
    w := 80, h := 24, x := 0, y := 0, tx := 0, ty := 0, mode := Mode.normal,
    storedtx := 0, name := none, name_needs_free := false, modified := false,
    written := false, done := false }

def c1tabRow : Row := { s := [9], tabs := 1 }

def c1resizeDemo : EdState :=
  { buf := { slots := [some c1tabRow], len := 1 }, cmd := { s := [], tabs := 0 },
    w := 80, h := 24, x := 1, y := 0, tx := 8, ty := 0, mode := Mode.normal,
    storedtx := 0, name := none, name_needs_free := false, modified := false,
    written := false, done := false }

def pageDemo : EdState :=
  { buf := { slots := List.replicate 8 none, len := 8 }, cmd := { s := [], tabs := 0 },
    w := 80, h := 4, x := 0, y := 5, tx := 0, ty := 0, mode := Mode.normal,
    storedtx := 0, name := none, name_needs_free := false, modified := false,
    written := false, done := false }

def c9demo : EdState :=
  { buf := { slots := [some { s := [], tabs := 0 }], len := 1 },
    cmd := { s := [113], tabs := 0 },
    w := 80, h := 24, x := 0, y := 0, tx := 1, ty := 0, mode := Mode.commandLine,
    storedtx := 0, name := none, name_needs_free := false, modified := true,
    written := false, done := false }

def c10demo : EdState :=
  { buf := { slots := [some { s := [], tabs := 0 }], len := 1 },
    cmd := { s := [120], tabs := 0 },
    w := 80, h := 24, x := 0, y := 0, tx := 2, ty := 0, mode := Mode.commandLine,
    storedtx := 3, name := none, name_needs_free := false, modified := true,
    written := true, done := false }

/-!
## General lemmas about the list operations used by the embedding
-/

theorem getD_range_map {α : Type} (d : α) (n : Nat) (f : Nat → α) (i : Nat) :
    ((List.range n).map f).getD i d = if i < n then f i else d := by
  rw [List.getD_eq_getElem?_getD, List.getElem?_map]
  by_cases h : i < n
  · rw [List.getElem?_range h]
    simp [h]
  · rw [List.getElem?_eq_none (by simpa using Nat.le_of_not_lt h)]
    simp [h]

theorem getD_set_slot (l : List (Option Row)) (k i : Nat) (v : Option Row) :
    (l.set k v).getD i none = if k = i ∧ k < l.length then v else l.getD i none := by
  rw [List.getD_eq_getElem?_getD, List.getD_eq_getElem?_getD, List.getElem?_set]
  by_cases h1 : k = i
  · subst h1
    by_cases h2 : k < l.length
    · simp [h2]
    · rw [if_pos rfl, if_neg h2, if_neg (fun hc => h2 hc.2),
        List.getElem?_eq_none (by omega)]
  · simp [h1]

theorem getD_none_of_le (l : List (Option Row)) (i : Nat) (h : l.length ≤ i) :
    l.getD i none = none := by
  rw [List.getD_eq_getElem?_getD, List.getElem?_eq_none h]
  rfl

theorem getD_append_replicate_none (l : List (Option Row)) (m i : Nat) :
    (l ++ List.replicate m none).getD i none = l.getD i none := by
  rw [List.getD_eq_getElem?_getD, List.getD_eq_getElem?_getD]
  by_cases h : i < l.length
  · rw [List.getElem?_append_left h]
  · rw [List.getElem?_append_right (by omega), List.getElem?_replicate,
      List.getElem?_eq_none (by omega)]
    split <;> rfl

/-!
## Lemmas about the buffer primitives
-/

theorem buf_resize_grow_len (b : Buf) (s : Nat) (h : b.slots.length < s) :
    (buf_resize b s).len = b.len := by
  unfold buf_resize
  rw [if_neg (by omega)]
  dsimp only
  rw [if_neg (by omega)]

theorem buf_resize_grow_length (b : Buf) (s : Nat) (h : b.slots.length < s) :
    (buf_resize b s).slots.length = s := by
  unfold buf_resize
  rw [if_neg (by omega)]
  dsimp only
  rw [if_neg (by omega)]
  simp only [List.length_append, List.length_replicate]
  omega

theorem buf_resize_grow_getD (b : Buf) (s : Nat) (h : b.slots.length < s) (i : Nat) :
    (buf_resize b s).slots.getD i none = b.slots.getD i none := by
  unfold buf_resize
  rw [if_neg (by omega)]
  dsimp only
  rw [if_neg (by omega)]
  exact getD_append_replicate_none _ _ _

theorem buf_shift_up_len (S : Buf) (start : Nat) :
    (buf_shift_up S start).len = S.len - 1 := rfl

theorem buf_shift_up_length (S : Buf) (start : Nat) :
    (buf_shift_up S start).slots.length = S.slots.length := by
  simp [buf_shift_up]

theorem buf_shift_up_getD (S : Buf) (start i : Nat) :
    (buf_shift_up S start).slots.getD i none =
      if S.len - 1 = i ∧ S.len - 1 < S.slots.length then none
      else if i < S.slots.length then
        if start ≤ i + 1 ∧ i + 1 < S.len then S.slots.getD (i + 1) none
        else S.slots.getD i none
      else none := by
  simp only [buf_shift_up]
  rw [getD_set_slot, getD_range_map]
  simp only [List.length_map, List.length_range]

theorem buf_set_slot_len (b : Buf) (k : Nat) (v : Option Row) :
    (buf_set_slot b k v).len = b.len := rfl

theorem buf_set_slot_length (b : Buf) (k : Nat) (v : Option Row) :
    (buf_set_slot b k v).slots.length = b.slots.length := by
  simp [buf_set_slot]

theorem buf_set_slot_getD (b : Buf) (k : Nat) (v : Option Row) (i : Nat) :
    (buf_set_slot b k v).slots.getD i none =
      if k = i ∧ k < b.slots.length then v else b.slots.getD i none := by
  simp only [buf_set_slot]
  exact getD_set_slot _ _ _ _

theorem buf_shift_down_len (b : Buf) (start g : Nat) (hg : 1 ≤ g)
    (_hlen : b.len ≤ b.slots.length) :
    (buf_shift_down b start g).len = b.len + 1 := by
  unfold buf_shift_down
  by_cases hc : b.len + 1 > b.slots.length
  · rw [if_pos hc]
    dsimp only
    rw [buf_resize_grow_len b _ (by omega)]
  · rw [if_neg hc]

theorem buf_shift_down_length (b : Buf) (start g : Nat) (hg : 1 ≤ g)
    (_hlen : b.len ≤ b.slots.length) :
    (buf_shift_down b start g).slots.length =
      if b.len + 1 > b.slots.length then b.slots.length + g else b.slots.length := by
  unfold buf_shift_down
  by_cases hc : b.len + 1 > b.slots.length
  · rw [if_pos hc, if_pos hc]
    dsimp only
    simp only [List.length_map, List.length_range]
    rw [buf_resize_grow_length b _ (by omega)]
  · rw [if_neg hc, if_neg hc]
    dsimp only
    simp only [List.length_map, List.length_range]

theorem buf_shift_down_getD (b : Buf) (start g : Nat) (hg : 1 ≤ g)
    (hlen : b.len ≤ b.slots.length) (i : Nat) :
    (buf_shift_down b start g).slots.getD i none =
      if i < (buf_shift_down b start g).slots.length then
        if start + 1 ≤ i ∧ i ≤ b.len then b.slots.getD (i - 1) none
        else b.slots.getD i none
      else none := by
  rw [buf_shift_down_length b start g hg hlen]
  unfold buf_shift_down
  by_cases hc : b.len + 1 > b.slots.length
  · rw [if_pos hc]
    dsimp only
    rw [getD_range_map]
    rw [buf_resize_grow_length b _ (by omega), buf_resize_grow_len b _ (by omega)]
    rw [if_pos hc]
    by_cases hi : i < b.slots.length + g
    · rw [if_pos hi, if_pos hi]
      by_cases hm : start + 1 ≤ i ∧ i ≤ b.len
      · rw [if_pos hm, if_pos hm, buf_resize_grow_getD b _ (by omega)]
      · rw [if_neg hm, if_neg hm, buf_resize_grow_getD b _ (by omega)]
    · rw [if_neg hi, if_neg hi]
  · rw [if_neg hc]
    dsimp only
    rw [getD_range_map]
    rw [if_neg hc]


/-!
## Lemmas about the file codec
-/

theorem lt_ROUNDUPTO_adjusted (e m : Nat) (hm : 0 < m) :
    e < ROUNDUPTO (if e % m = 0 then e + 1 else e) m := by
  unfold ROUNDUPTO
  have h4 := Nat.div_add_mod e m
  have hdm : e % m < m := Nat.mod_lt e hm
  have hx : m * (e / m + 1) = m * (e / m) + m := by ring
  by_cases h : e % m = 0
  · rw [if_pos h]
    have he : e + 1 + m - 1 = m * (e / m + 1) + 0 := by omega
    rw [he, Nat.mul_add_div hm, Nat.div_eq_of_lt hm]
    have h5 : (e / m + 1 + 0) * m = m * (e / m) + m := by ring
    rw [h5]
    omega
  · rw [if_neg h]
    have he : e + m - 1 = m * (e / m + 1) + (e % m - 1) := by omega
    have hlt : e % m - 1 < m := by omega
    rw [he, Nat.mul_add_div hm, Nat.div_eq_of_lt hlt]
    have h5 : (e / m + 1 + 0) * m = m * (e / m) + m := by ring
    rw [h5]
    omega

theorem file_grow_len (b : Buf) (e : Nat) : (file_grow b e).len = b.len := by
  unfold file_grow
  by_cases h : e ≥ b.slots.length
  · rw [if_pos h]
    exact buf_resize_grow_len b _
      (lt_of_le_of_lt h (lt_ROUNDUPTO_adjusted e FILE_BUF_SIZE_INCR (by decide)))
  · rw [if_neg h]

theorem file_grow_bound (b : Buf) (e : Nat) : e < (file_grow b e).slots.length := by
  unfold file_grow
  by_cases h : e ≥ b.slots.length
  · rw [if_pos h]
    rw [buf_resize_grow_length b _
      (lt_of_le_of_lt h (lt_ROUNDUPTO_adjusted e FILE_BUF_SIZE_INCR (by decide)))]
    exact lt_ROUNDUPTO_adjusted e FILE_BUF_SIZE_INCR (by decide)
  · rw [if_neg h]
    omega

theorem file_grow_getD (b : Buf) (e i : Nat) :
    (file_grow b e).slots.getD i none = b.slots.getD i none := by
  unfold file_grow
  by_cases h : e ≥ b.slots.length
  · rw [if_pos h]
    exact buf_resize_grow_getD b _
      (lt_of_le_of_lt h (lt_ROUNDUPTO_adjusted e FILE_BUF_SIZE_INCR (by decide))) i
  · rw [if_neg h]

theorem takeWhile_ne_zero_eq_self (l : List Nat) (h : ∀ x ∈ l, x ≠ 0) :
    l.takeWhile (fun b => b ≠ 0) = l := by
  rw [List.takeWhile_eq_self_iff]
  intro a ha
  simpa using h a ha

theorem load_row_line (l : List Nat) (h0 : ∀ x ∈ l, x ≠ 0) :
    load_row (l ++ [10]) = ⟨l, count_tabs l⟩ := by
  unfold load_row
  dsimp only
  have hl : ((l ++ [10]).takeWhile (fun b => b ≠ 0)).length = l.length + 1 := by
    rw [takeWhile_ne_zero_eq_self (l ++ [10]) (by
      intro x hx
      rcases List.mem_append.1 hx with hx | hx
      · exact h0 x hx
      · simp at hx; omega)]
    simp
  rw [hl]
  have hgd : (l ++ [10]).getD (l.length + 1 - 1) 0 = 10 := by
    rw [List.getD_eq_getElem?_getD]
    simp
  rw [if_pos ⟨by omega, hgd⟩]
  simp

theorem getline_split_append (l rest : List Nat) (h : 10 ∉ l) :
    getline_split (l ++ 10 :: rest) = (l ++ [10]) :: getline_split rest := by
  induction l with
  | nil =>
    simp [getline_split]
  | cons a l ih =>
    have ha : a ≠ 10 := by intro hc; exact h (hc ▸ List.mem_cons_self a l)
    have hrest : 10 ∉ l := fun hc => h (List.mem_cons_of_mem a hc)
    simp only [List.cons_append, getline_split, if_neg ha, List.append_eq]
    rw [ih hrest]

theorem getline_split_flatten (ls : List (List Nat)) (h : ∀ l ∈ ls, 10 ∉ l) :
    getline_split ((ls.map (fun l => l ++ [10])).flatten) = ls.map (fun l => l ++ [10]) := by
  induction ls with
  | nil => rfl
  | cons l ls ih =>
    have hl : 10 ∉ l := h l (List.mem_cons_self l ls)
    have hr : ∀ x ∈ ls, 10 ∉ x := fun x hx => h x (List.mem_cons_of_mem l hx)
    simp only [List.map_cons, List.flatten_cons]
    rw [List.append_assoc]
    rw [show [10] ++ (ls.map (fun l => l ++ [10])).flatten
        = 10 :: (ls.map (fun l => l ++ [10])).flatten from rfl]
    rw [getline_split_append l _ hl, ih hr]

theorem fold_load_spec (lines : List (List Nat)) : ∀ (b : Buf) (start : Nat),
    ((lines.foldl file_load_step (b, start)).2 = start + lines.length) ∧
    ((lines.foldl file_load_step (b, start)).1.len = b.len) ∧
    (∀ i, (lines.foldl file_load_step (b, start)).1.slots.getD i none =
      if start ≤ i ∧ i < start + lines.length
      then some (load_row (lines.getD (i - start) []))
      else b.slots.getD i none) := by
  induction lines with
  | nil =>
    intro b start
    refine ⟨by simp, rfl, ?_⟩
    intro i
    rw [if_neg (by simp)]
    rfl
  | cons l ls ih =>
    intro b start
    have hstep : file_load_step (b, start) l
        = (buf_set_slot (file_grow b start) start (some (load_row l)), start + 1) := rfl
    simp only [List.foldl_cons, hstep, List.length_cons]
    obtain ⟨ih2, ihlen, ihget⟩ :=
      ih (buf_set_slot (file_grow b start) start (some (load_row l))) (start + 1)
    refine ⟨by rw [ih2]; omega, ?_, ?_⟩
    · rw [ihlen, buf_set_slot_len, file_grow_len]
    · intro i
      rw [ihget i]
      by_cases h1 : start + 1 ≤ i ∧ i < start + 1 + ls.length
      · rw [if_pos h1, if_pos (by omega)]
        have hix : i - start = (i - (start + 1)) + 1 := by omega
        rw [hix]
        rfl
      · rw [if_neg h1]
        rw [buf_set_slot_getD]
        by_cases h2 : i = start
        · subst h2
          rw [if_pos ⟨rfl, file_grow_bound b i⟩, if_pos (by omega)]
          have : i - i = 0 := by omega
          rw [this]
          rfl
        · rw [if_neg (fun hc => h2 hc.1.symm)]
          rw [file_grow_getD]
          rw [if_neg (by omega)]

/-!
## Claim C3 — `remove_char`
-/


/-!
## The cursor invariant and its preservation by the key handlers
-/

theorem visual_col_zero (l : List Nat) : visual_col l 0 = 0 := rfl

theorem visual_col_succ (l : List Nat) (m : Nat) (h : m < l.length) :
    visual_col l (m + 1) = visual_col l m + visual_width (l.getD m 0) := by
  unfold visual_col
  rw [List.take_succ]
  have : l[m]?.toList = [l.getD m 0] := by
    rw [List.getElem?_eq_getElem h]
    simp [List.getD_eq_getElem?_getD, List.getElem?_eq_getElem h]
  rw [this]
  simp

theorem visual_col_take_eq (l1 l2 : List Nat) (m : Nat) (h : l1.take m = l2.take m) :
    visual_col l1 m = visual_col l2 m := by
  unfold visual_col
  rw [h]

theorem getD_drop_head (full : List Nat) (i : Nat) (c : Nat) (rest : List Nat)
    (h : full.drop i = c :: rest) : full.getD i 0 = c := by
  have h0 : (full.drop i)[0]? = some c := by rw [h]; simp
  rw [List.getElem?_drop] at h0
  simp only [Nat.add_zero] at h0
  rw [List.getD_eq_getElem?_getD, h0]
  rfl

theorem fix_xpos_walk_spec (l : List Nat) : ∀ (full : List Nat) (target : Int) (i acc : Nat),
    full.drop i = l → i ≤ full.length → acc = visual_col full i →
    (((fix_xpos_walk l target i acc).2.2 = true →
        (fix_xpos_walk l target i acc).1 < full.length ∧
        (fix_xpos_walk l target i acc).2.1
          = visual_col full ((fix_xpos_walk l target i acc).1 + 1)) ∧
     ((fix_xpos_walk l target i acc).2.2 = false →
        (fix_xpos_walk l target i acc).1 = full.length ∧
        (fix_xpos_walk l target i acc).2.1 = visual_col full full.length)) := by
  induction l with
  | nil =>
    intro full target i acc hdrop hle hacc
    have : i = full.length := by
      have := congrArg List.length hdrop
      simp [List.length_drop] at this
      omega
    subst this
    unfold fix_xpos_walk
    exact ⟨fun hc => by simp at hc, fun _ => ⟨rfl, hacc ▸ rfl⟩⟩
  | cons c rest ih =>
    intro full target i acc hdrop hle hacc
    have hlt : i < full.length := by
      have := congrArg List.length hdrop
      simp [List.length_drop] at this
      omega
    have hc : full.getD i 0 = c := getD_drop_head full i c rest hdrop
    have hrest : full.drop (i + 1) = rest := by
      have := congrArg List.tail hdrop
      rw [List.tail_drop] at this
      simpa using this
    have hacc2 : acc + (if c = 9 then 8 else 1) = visual_col full (i + 1) := by
      rw [visual_col_succ full i hlt, hc, hacc]
      rfl
    unfold fix_xpos_walk
    dsimp only
    by_cases htgt : target ≤ ((acc + (if c = 9 then 8 else 1) : Nat) : Int)
    · rw [if_pos htgt]
      exact ⟨fun _ => ⟨hlt, hacc2⟩, fun hfc => by simp at hfc⟩
    · rw [if_neg htgt]
      exact ih full target (i + 1) (acc + (if c = 9 then 8 else 1)) hrest hlt hacc2

theorem cursor_ok_mk (st : EdState) (x tx : Int)
    (h1 : 0 ≤ x) (h2 : x.toNat ≤ (content_at st).length)
    (h3 : tx = (visual_col (content_at st) x.toNat : Int)) :
    cursor_ok { st with x := x, tx := tx } :=
  ⟨h1, h2, h3⟩

theorem cursor_ok_of_zero (st : EdState) (hx : st.x = 0) (htx : st.tx = 0) :
    cursor_ok st := by
  unfold cursor_ok
  refine ⟨by omega, by simp [hx], by simp [htx, hx, visual_col]⟩

theorem cursor_ok_ty (st : EdState) (t : Int) : cursor_ok { st with ty := t } ↔ cursor_ok st :=
  Iff.rfl

theorem cursor_fix_xpos_ok (st : EdState) : cursor_ok (cursor_fix_xpos st) := by
  unfold cursor_fix_xpos
  by_cases hx : st.x = 0
  · rw [if_pos hx]
    exact cursor_ok_of_zero _ hx rfl
  · rw [if_neg hx]
    obtain ⟨hfound, hnotfound⟩ :=
      fix_xpos_walk_spec (content_at st) (content_at st) st.tx 0 0 (by simp) (by simp) rfl
    cases hb : (fix_xpos_walk (content_at st) st.tx 0 0).2.2 with
    | false =>
      obtain ⟨h1, h2⟩ := hnotfound hb
      exact cursor_ok_mk st _ _ (by simp [hb]) (by simp [hb, h1]) (by simp [hb, h1, h2])
    | true =>
      obtain ⟨h1, h2⟩ := hfound hb
      refine cursor_ok_mk st _ _ (by simp [hb]; omega) ?_ ?_
      · simp [hb]
        omega
      · simp only [hb, if_pos]
        rw [h2]
        have hn : (((fix_xpos_walk (content_at st) st.tx 0 0).1 : Int) + 1).toNat
            = (fix_xpos_walk (content_at st) st.tx 0 0).1 + 1 := by omega
        rw [hn]

theorem cursor_up_ok (st : EdState) (h : cursor_ok st) : cursor_ok (cursor_up st) := by
  unfold cursor_up
  by_cases hy : st.y ≠ 0
  · rw [if_pos hy]
    exact (cursor_ok_ty _ _).2 (cursor_fix_xpos_ok _)
  · rw [if_neg hy]
    exact h

theorem cursor_down_ok (st : EdState) (h : cursor_ok st) : cursor_ok (cursor_down st) := by
  unfold cursor_down
  by_cases hy : st.buf.len ≠ 0 ∧ castSize st.y < st.buf.len - 1
  · rw [if_pos hy]
    exact (cursor_ok_ty _ _).2 (cursor_fix_xpos_ok _)
  · rw [if_neg hy]
    exact h

theorem cursor_up_page_ok (st : EdState) (h : cursor_ok st) : cursor_ok (cursor_up_page st) := by
  unfold cursor_up_page
  by_cases hy : 0 < st.y - st.ty
  · rw [if_pos hy]
    exact (cursor_ok_ty _ _).2 (cursor_fix_xpos_ok _)
  · rw [if_neg hy]
    exact h

theorem cursor_down_page_ok (st : EdState) (h : cursor_ok st) :
    cursor_ok (cursor_down_page st) := by
  unfold cursor_down_page
  by_cases hy : st.buf.len ≠ 0 ∧ castSize st.y < st.buf.len - 1
  · rw [if_pos hy]
    exact (cursor_ok_ty _ _).2 (cursor_fix_xpos_ok _)
  · rw [if_neg hy]
    exact h

theorem cursor_linestart_ok (st : EdState) : cursor_ok (cursor_linestart st) :=
  cursor_ok_of_zero _ rfl rfl

theorem cursor_startnextrow_ok (st : EdState) (strip : Bool) (h : cursor_ok st) :
    cursor_ok (cursor_startnextrow st strip) := by
  unfold cursor_startnextrow
  dsimp only
  by_cases hy : st.buf.len ≠ 0 ∧ castSize st.y < st.buf.len - 1
  · rw [if_pos hy]
    exact cursor_ok_of_zero _ rfl rfl
  · rw [if_neg hy]
    exact h

theorem castSize_eq_toNat (i : Int) (h0 : 0 ≤ i) (h1 : i < 2 ^ 64) : castSize i = i.toNat := by
  unfold castSize
  rw [Int.emod_eq_of_lt h0 (by exact_mod_cast h1)]

theorem row_byte_at_eq (b : Buf) (y x : Int) :
    row_byte_at b y x = (slot_content (buf_slot b y)).getD (castSize x) 0 := by
  unfold row_byte_at slot_content
  cases buf_slot b y <;> simp

theorem buf_elem_len_eq (b : Buf) (e : Nat) :
    buf_elem_len b e = (slot_content (b.slots.getD e none)).length := by
  unfold buf_elem_len slot_content
  cases b.slots.getD e none <;> rfl

theorem visual_width_sum (l : List Nat) :
    (l.map visual_width).sum = l.length + 7 * count_tabs l := by
  induction l with
  | nil => rfl
  | cons c rest ih =>
    simp only [List.map_cons, List.sum_cons, ih, List.length_cons]
    unfold count_tabs at ih ⊢
    rw [List.count_cons]
    unfold visual_width
    by_cases h : c = 9
    · simp only [h, if_pos rfl, beq_self_eq_true, if_true, TAB_WIDTH]
      ring
    · rw [if_neg h, if_neg (by simpa using fun hc => h (by omega))]
      omega

theorem visual_col_eq_sum (l : List Nat) : visual_col l l.length = (l.map visual_width).sum := by
  unfold visual_col
  rw [List.take_length]

theorem buf_elem_visual_len_eq (b : Buf) (e : Nat) (r : Row)
    (hs : b.slots.getD e none = some r) (ht : r.tabsOk) :
    buf_elem_visual_len b e = visual_col r.s r.s.length := by
  unfold buf_elem_visual_len
  rw [hs]
  dsimp only
  rw [visual_col_eq_sum, visual_width_sum]
  have hcount : count_tabs r.s ≤ r.s.length := List.count_le_length 9 r.s
  unfold Row.tabsOk at ht
  unfold TAB_WIDTH
  by_cases h0 : r.tabs = 0
  · rw [if_pos h0]
    omega
  · rw [if_neg h0]
    omega

theorem content_at_small (st : EdState) (hw : state_wf st) :
    (content_at st).length < 2 ^ 31 := by
  obtain ⟨-, -, -, -, -, -, -, hsmall, hrows⟩ := hw
  unfold content_at slot_content buf_slot
  cases hc : st.buf.slots.getD (castSize st.y) none with
  | none => norm_num
  | some r => exact hrows _ r hc

theorem castSize_x (st : EdState) (hok : cursor_ok st) (hw : state_wf st) :
    castSize st.x = st.x.toNat := by
  have h1 := content_at_small st hw
  have h2 := hok.2.1
  have h0 := hok.1
  exact castSize_eq_toNat _ h0 (by omega)

theorem content_len_eq (st : EdState) :
    buf_elem_len st.buf (castSize st.y) = (content_at st).length :=
  buf_elem_len_eq st.buf (castSize st.y)

theorem visual_width_def (c : Nat) : visual_width c = if c = 9 then 8 else 1 := rfl

theorem cursor_right_ok (st : EdState) (stop : Bool) (hok : cursor_ok st)
    (hw : state_wf st) : cursor_ok (cursor_right st stop) := by
  unfold cursor_right
  dsimp only
  by_cases hg : st.tx < st.w - 1 ∧
      castSize st.x < (if stop ∧ buf_elem_len st.buf (castSize st.y) ≠ 0 then
        buf_elem_len st.buf (castSize st.y) - 1 else buf_elem_len st.buf (castSize st.y))
  · rw [if_pos hg]
    have hcx : castSize st.x = st.x.toNat := castSize_x st hok hw
    have hxlt : st.x.toNat < (content_at st).length := by
      have := hg.2
      rw [hcx, content_len_eq] at this
      split at this <;> omega
    have hbyte : row_byte_at st.buf st.y st.x = (content_at st).getD st.x.toNat 0 := by
      rw [row_byte_at_eq, hcx]
      rfl
    refine cursor_ok_mk st _ _ (by have := hok.1; omega) ?_ ?_
    · have : (st.x + 1).toNat = st.x.toNat + 1 := by have := hok.1; omega
      rw [this]
      omega
    · have hsucc := visual_col_succ (content_at st) st.x.toNat hxlt
      have htn : (st.x + 1).toNat = st.x.toNat + 1 := by have := hok.1; omega
      rw [htn, hsucc, hbyte, hok.2.2]
      rw [visual_width_def]
      by_cases h9 : (content_at st).getD st.x.toNat 0 = 9
      · rw [if_pos h9, if_pos h9]
        push_cast
        ring
      · rw [if_neg h9, if_neg h9]
        push_cast
        ring
  · rw [if_neg hg]
    exact hok

theorem cursor_left_ok (st : EdState) (hok : cursor_ok st) (hw : state_wf st) :
    cursor_ok (cursor_left st) := by
  unfold cursor_left
  by_cases hx : st.x ≠ 0
  · rw [if_pos hx]
    have h0 := hok.1
    have hx1 : 1 ≤ st.x := by omega
    have hcx : castSize (st.x - 1) = st.x.toNat - 1 := by
      have h1 := content_at_small st hw
      have h2 := hok.2.1
      rw [castSize_eq_toNat _ (by omega) (by omega)]
      omega
    have hxlt : st.x.toNat - 1 < (content_at st).length := by
      have := hok.2.1
      omega
    have hbyte : row_byte_at st.buf st.y (st.x - 1)
        = (content_at st).getD (st.x.toNat - 1) 0 := by
      rw [row_byte_at_eq, hcx]
      rfl
    have hsucc := visual_col_succ (content_at st) (st.x.toNat - 1) hxlt
    have hxs : st.x.toNat - 1 + 1 = st.x.toNat := by omega
    rw [hxs] at hsucc
    refine cursor_ok_mk st _ _ (by omega) (by omega) ?_
    have htn : (st.x - 1).toNat = st.x.toNat - 1 := by omega
    rw [htn, hok.2.2, hbyte, hsucc, visual_width_def]
    by_cases h9 : (content_at st).getD (st.x.toNat - 1) 0 = 9
    · rw [if_pos h9, if_pos h9]
      push_cast
      ring
    · rw [if_neg h9, if_neg h9]
      push_cast
      ring
  · rw [if_neg hx]
    exact hok

theorem cursor_ok_mk_y (st : EdState) (y x tx ty : Int)
    (h1 : 0 ≤ x) (h2 : x.toNat ≤ (slot_content (buf_slot st.buf y)).length)
    (h3 : tx = (visual_col (slot_content (buf_slot st.buf y)) x.toNat : Int)) :
    cursor_ok { st with y := y, x := x, tx := tx, ty := ty } :=
  ⟨h1, h2, h3⟩

theorem cursor_lineend_ok (st : EdState) (stop : Bool) (hw : state_wf st) :
    cursor_ok (cursor_lineend st stop) := by
  obtain ⟨-, -, -, -, -, htabs, -, -, hrows⟩ := hw
  unfold cursor_lineend
  dsimp only
  cases hc : buf_slot st.buf st.y with
  | none =>
    have hel : buf_elem_len st.buf (castSize st.y) = 0 := by
      unfold buf_elem_len
      unfold buf_slot at hc
      rw [hc]
    rw [hel]
    rw [if_neg (by simp)]
    refine cursor_ok_mk st _ _ (by omega) (by simp) ?_
    have hvl : buf_elem_visual_len st.buf (castSize st.y) = 0 := by
      unfold buf_elem_visual_len
      unfold buf_slot at hc
      rw [hc]
    rw [hvl]
    simp [visual_col]
  | some r =>
    unfold buf_slot at hc
    have hcontent : content_at st = r.s := by
      unfold content_at buf_slot slot_content
      rw [hc]
    have hel : buf_elem_len st.buf (castSize st.y) = r.s.length := by
      unfold buf_elem_len
      rw [hc]
    have hvl : buf_elem_visual_len st.buf (castSize st.y) = visual_col r.s r.s.length :=
      buf_elem_visual_len_eq st.buf (castSize st.y) r hc (htabs _ r hc)
    rw [hel, hvl]
    by_cases hstop : stop ∧ (r.s.length : Int) ≠ 0
    · rw [if_pos hstop]
      have hlen1 : 1 ≤ r.s.length := by
        rcases hstop with ⟨-, h⟩
        omega
      have hsmall : r.s.length < 2 ^ 31 := hrows _ r hc
      have hcx : castSize ((r.s.length : Int) - 1) = r.s.length - 1 := by
        rw [castSize_eq_toNat _ (by omega) (by omega)]
        omega
      have hbyte : row_byte_at st.buf st.y ((r.s.length : Int) - 1)
          = r.s.getD (r.s.length - 1) 0 := by
        rw [row_byte_at_eq, hcx]
        unfold buf_slot slot_content
        rw [hc]
      have hsucc := visual_col_succ r.s (r.s.length - 1) (by omega)
      have hxs : r.s.length - 1 + 1 = r.s.length := by omega
      rw [hxs] at hsucc
      refine cursor_ok_mk st _ _ (by omega) ?_ ?_
      · rw [hcontent]
        omega
      · rw [hcontent]
        have htn : ((r.s.length : Int) - 1).toNat = r.s.length - 1 := by omega
        rw [htn, hbyte, hsucc, visual_width_def]
        by_cases h9 : r.s.getD (r.s.length - 1) 0 = 9
        · rw [if_pos h9, if_pos h9]
          push_cast
          ring
        · rw [if_neg h9, if_neg h9]
          push_cast
          ring
    · rw [if_neg hstop]
      refine cursor_ok_mk st _ _ (by omega) ?_ ?_
      · rw [hcontent]
        simp
      · rw [hcontent]
        simp

theorem cursor_endpreviousrow_ok (st : EdState) (hok : cursor_ok st) (hw : state_wf st) :
    cursor_ok (cursor_endpreviousrow st) := by
  obtain ⟨-, -, -, -, -, htabs, -, -, -⟩ := hw
  unfold cursor_endpreviousrow
  dsimp only
  by_cases hy : st.y ≠ 0
  · rw [if_pos hy]
    cases hc : st.buf.slots.getD (castSize (st.y - 1)) none with
    | none =>
      have hel : buf_elem_len st.buf (castSize (st.y - 1)) = 0 := by
        unfold buf_elem_len
        rw [hc]
      have hvl : buf_elem_visual_len st.buf (castSize (st.y - 1)) = 0 := by
        unfold buf_elem_visual_len
        rw [hc]
      refine cursor_ok_mk_y st _ _ _ _ (by rw [hel]; omega) ?_ ?_
      · simp [hel]
      · rw [hel, hvl]
        unfold buf_slot slot_content
        rw [hc]
        simp [visual_col]
    | some r =>
      have hel : buf_elem_len st.buf (castSize (st.y - 1)) = r.s.length := by
        unfold buf_elem_len
        rw [hc]
      have hvl : buf_elem_visual_len st.buf (castSize (st.y - 1))
          = visual_col r.s r.s.length :=
        buf_elem_visual_len_eq st.buf (castSize (st.y - 1)) r hc (htabs _ r hc)
      refine cursor_ok_mk_y st _ _ _ _ (by rw [hel]; omega) ?_ ?_
      · unfold buf_slot slot_content
        rw [hel, hc]
        simp
      · rw [hel, hvl]
        unfold buf_slot slot_content
        rw [hc]
        simp
  · rw [if_neg hy]
    exact hok

theorem nonblank_walk_spec (l : List Nat) : ∀ (full : List Nat) (i acc : Nat),
    full.drop i = l → i ≤ full.length → acc = visual_col full i →
    i ≤ (nonblank_walk l i acc).1 ∧ (nonblank_walk l i acc).1 ≤ full.length ∧
    (nonblank_walk l i acc).2 = visual_col full (nonblank_walk l i acc).1 := by
  induction l with
  | nil =>
    intro full i acc hdrop hle hacc
    have : i = full.length := by
      have := congrArg List.length hdrop
      simp [List.length_drop] at this
      omega
    unfold nonblank_walk
    exact ⟨le_refl i, by omega, hacc ▸ rfl⟩
  | cons c rest ih =>
    intro full i acc hdrop hle hacc
    have hlt : i < full.length := by
      have := congrArg List.length hdrop
      simp [List.length_drop] at this
      omega
    have hcb : full.getD i 0 = c := getD_drop_head full i c rest hdrop
    have hrest : full.drop (i + 1) = rest := by
      have := congrArg List.tail hdrop
      rw [List.tail_drop] at this
      simpa using this
    have hacc2 : acc + (if c = 9 then TAB_WIDTH else 1) = visual_col full (i + 1) := by
      rw [visual_col_succ full i hlt, hcb, hacc]
      rfl
    unfold nonblank_walk
    by_cases hblank : c = 32 ∨ c = 9
    · rw [if_pos hblank]
      obtain ⟨ha, hb, hcc⟩ :=
        ih full (i + 1) (acc + (if c = 9 then TAB_WIDTH else 1)) hrest hlt hacc2
      exact ⟨by omega, hb, hcc⟩
    · rw [if_neg hblank]
      exact ⟨le_refl i, by omega, hacc ▸ rfl⟩

theorem notempty_spec (b : Buf) (y : Int) (h : BUF_ELEM_NOTEMPTY b y = true) :
    castSize y < b.slots.length ∧ castSize y < b.len ∧
    1 ≤ (slot_content (b.slots.getD (castSize y) none)).length := by
  unfold BUF_ELEM_NOTEMPTY at h
  simp only [Bool.and_eq_true, decide_eq_true_eq] at h
  obtain ⟨⟨h1, h2⟩, h3⟩ := h
  refine ⟨h1, h2, ?_⟩
  have key : ∀ o : Option Row,
      (match o with | none => false | some r => decide (0 < r.s.length))
        = decide (0 < (slot_content o).length) := by
    intro o
    cases o <;> simp [slot_content]
  rw [key] at h3
  simp only [decide_eq_true_eq] at h3
  omega

theorem cursor_nonblank_ok (st : EdState) (hok : cursor_ok st) :
    cursor_ok (cursor_nonblank st) := by
  unfold cursor_nonblank
  by_cases hne : BUF_ELEM_NOTEMPTY st.buf st.y = true
  · rw [if_pos hne]
    have hca : slot_content (buf_slot st.buf st.y) = content_at st := rfl
    rw [hca]
    have hlen1 : 1 ≤ (content_at st).length := by
      have := (notempty_spec st.buf st.y hne).2.2
      unfold content_at buf_slot
      exact this
    obtain ⟨ha, hb, hcc⟩ := nonblank_walk_spec (content_at st) (content_at st) 0 0
      (by simp) (by simp) rfl
    by_cases hend : (nonblank_walk (content_at st) 0 0).1 = (content_at st).length
    · rw [if_pos hend]
      have hr1 : 1 ≤ (nonblank_walk (content_at st) 0 0).1 := by omega
      have hsucc := visual_col_succ (content_at st)
        ((nonblank_walk (content_at st) 0 0).1 - 1) (by omega)
      have hxs : (nonblank_walk (content_at st) 0 0).1 - 1 + 1
          = (nonblank_walk (content_at st) 0 0).1 := by omega
      rw [hxs] at hsucc
      have htn : (((nonblank_walk (content_at st) 0 0).1 : Int) - 1).toNat
          = (nonblank_walk (content_at st) 0 0).1 - 1 := by omega
      refine cursor_ok_mk st _ _ (by omega) (by rw [htn]; omega) ?_
      rw [htn, hcc, hsucc, visual_width_def]
      by_cases h9 : (content_at st).getD ((nonblank_walk (content_at st) 0 0).1 - 1) 0 = 9
      · rw [if_pos h9, if_pos h9]
        push_cast
        ring
      · rw [if_neg h9, if_neg h9]
        push_cast
        ring
    · rw [if_neg hend]
      refine cursor_ok_mk st _ _ (by omega) (by simp; omega) (by simp [hcc])
  · rw [if_neg hne]
    exact hok

theorem notempty_some (b : Buf) (y : Int) (h : BUF_ELEM_NOTEMPTY b y = true) :
    ∃ r, b.slots.getD (castSize y) none = some r ∧ 0 < r.s.length := by
  have h3 := (notempty_spec b y h).2.2
  cases hc : b.slots.getD (castSize y) none with
  | none =>
    rw [hc] at h3
    simp [slot_content] at h3
  | some r =>
    rw [hc] at h3
    exact ⟨r, rfl, by simpa [slot_content] using h3⟩

theorem castSize_y (st : EdState) (hw : state_wf st) : castSize st.y = st.y.toNat := by
  obtain ⟨-, h2, h3, h4, -, -, -, hsmall, -⟩ := hw
  exact castSize_eq_toNat _ h3 (by omega)

theorem row_removechar_spec (r : Row) (idx : Nat) (h : idx < r.s.length) :
    (row_removechar r idx).s.length = r.s.length - 1 ∧
    (row_removechar r idx).s.take idx = r.s.take idx := by
  unfold row_removechar
  rw [if_neg (by omega)]
  dsimp only
  have hmin : min idx r.s.length = idx := by omega
  rw [hmin]
  constructor
  · rw [List.length_take, List.length_append, List.length_take, List.length_drop]
    omega
  · rw [List.take_take]
    have hmin2 : min idx (r.s.length - 1) = idx := by omega
    rw [hmin2, List.take_append_eq_append_take]
    have hlt : idx - (r.s.take idx).length = 0 := by
      rw [List.length_take]
      omega
    rw [hlt, List.take_zero, List.append_nil, List.take_take]
    rw [min_self]

theorem row_insertchar_spec (r : Row) (c idx g : Nat) (h : idx ≤ r.s.length) :
    (row_insertchar r c idx g).s.length = r.s.length + 1 ∧
    (row_insertchar r c idx g).s.take (idx + 1) = r.s.take idx ++ [c] := by
  unfold row_insertchar
  dsimp only
  have hmin : min idx r.s.length = idx := by omega
  rw [hmin]
  constructor
  · rw [List.length_append, List.length_take, List.length_cons, List.length_drop]
    omega
  · rw [List.take_append_eq_append_take]
    have h1 : (r.s.take idx).take (idx + 1) = r.s.take idx := by
      rw [List.take_take]
      congr 1
      omega
    have h2 : idx + 1 - (r.s.take idx).length = 1 := by
      rw [List.length_take]
      omega
    rw [h1, h2, List.take_succ_cons, List.take_zero]

theorem cursor_ok_mk_rm (st : EdState) (b : Buf)
    (h2 : st.x.toNat ≤ (slot_content (buf_slot b st.y)).length)
    (h3 : st.tx = (visual_col (slot_content (buf_slot b st.y)) st.x.toNat : Int))
    (h1 : 0 ≤ st.x) :
    cursor_ok { st with modified := true, buf := b } := ⟨h1, h2, h3⟩

theorem cursor_ok_mk_ins (st : EdState) (b : Buf) (x tx : Int)
    (h1 : 0 ≤ x) (h2 : x.toNat ≤ (slot_content (buf_slot b st.y)).length)
    (h3 : tx = (visual_col (slot_content (buf_slot b st.y)) x.toNat : Int)) :
    cursor_ok { st with modified := true, buf := b, x := x, tx := tx } := ⟨h1, h2, h3⟩

theorem cursor_ok_mk_buf (st : EdState) (b : Buf) (y x tx ty : Int)
    (h1 : 0 ≤ x) (h2 : x.toNat ≤ (slot_content (buf_slot b y)).length)
    (h3 : tx = (visual_col (slot_content (buf_slot b y)) x.toNat : Int)) :
    cursor_ok { st with buf := b, y := y, x := x, tx := tx, ty := ty } := ⟨h1, h2, h3⟩

theorem buf_char_remove_ok (st : EdState) (hok : cursor_ok st) (hw : state_wf st)
    (hne : BUF_ELEM_NOTEMPTY st.buf st.y = true)
    (hlt : castSize st.x < buf_elem_len st.buf (castSize st.y)) :
    cursor_ok { st with modified := true, buf := buf_char_remove st.buf (castSize st.y) (castSize st.x) } := by
  obtain ⟨r, hr, hrlen⟩ := notempty_some st.buf st.y hne
  have hcx : castSize st.x = st.x.toNat := castSize_x st hok hw
  have hcontent : content_at st = r.s := by
    unfold content_at buf_slot slot_content
    rw [hr]
  have hel : buf_elem_len st.buf (castSize st.y) = r.s.length := by
    unfold buf_elem_len
    rw [hr]
  rw [hel, hcx] at hlt
  have hbound : castSize st.y < st.buf.slots.length := (notempty_spec st.buf st.y hne).1
  have hbuf : buf_char_remove st.buf (castSize st.y) (castSize st.x)
      = buf_set_slot st.buf (castSize st.y) (some (row_removechar r st.x.toNat)) := by
    unfold buf_char_remove
    rw [if_pos hbound, hr, hcx]
  obtain ⟨hrl, hrt⟩ := row_removechar_spec r st.x.toNat hlt
  rw [hbuf]
  have hslot : buf_slot (buf_set_slot st.buf (castSize st.y)
      (some (row_removechar r st.x.toNat))) st.y
      = some (row_removechar r st.x.toNat) := by
    unfold buf_slot
    rw [buf_set_slot_getD, if_pos ⟨rfl, hbound⟩]
  refine cursor_ok_mk_rm st _ ?_ ?_ hok.1
  · rw [hslot]
    simp only [slot_content]
    omega
  · rw [hslot]
    simp only [slot_content]
    rw [hok.2.2, hcontent]
    have := visual_col_take_eq r.s (row_removechar r st.x.toNat).s st.x.toNat hrt.symm
    exact_mod_cast congrArg (Nat.cast : Nat → Int) this

theorem visual_col_of_take (l : List Nat) (m : Nat) (p : List Nat) (h : l.take m = p) :
    visual_col l m = (p.map visual_width).sum := by
  unfold visual_col
  rw [h]

theorem visual_col_append_left (A B : List Nat) :
    visual_col (A ++ B) A.length = visual_col A A.length := by
  unfold visual_col
  rw [List.take_append_eq_append_take]
  simp

theorem buf_char_insert_ok (st : EdState) (c : Nat) (tw : Int)
    (hok : cursor_ok st) (hw : state_wf st)
    (htw : tw = if c = 9 then (8 : Int) else 1) :
    cursor_ok { st with modified := true, buf := buf_char_insert st.buf (castSize st.y) c (castSize st.x), x := st.x + 1, tx := st.tx + tw } := by
  have hcy : castSize st.y = st.y.toNat := castSize_y st hw
  have hcx : castSize st.x = st.x.toNat := castSize_x st hok hw
  obtain ⟨hlen1, hlen2, hy0, hylen, hempty, htabs, hh, hsmall, hrows⟩ := hw
  have hx0 := hok.1
  have hge1 : ¬ castSize st.y ≥ st.buf.slots.length := by
    rw [hcy]
    omega
  have hge2 : ¬ castSize st.y ≥ st.buf.len := by
    rw [hcy]
    omega
  have hbound : castSize st.y < st.buf.slots.length := by
    rw [hcy]
    omega
  have hwidth : tw = ((if c = 9 then (8 : Nat) else 1 : Nat) : Int) := by
    rw [htw]
    by_cases h9 : c = 9
    · rw [if_pos h9, if_pos h9]
      norm_num
    · rw [if_neg h9, if_neg h9]
      norm_num
  cases hc : st.buf.slots.getD (castSize st.y) none with
  | none =>
    have hcontent : content_at st = [] := by
      unfold content_at buf_slot slot_content
      rw [hc]
    have hxz : st.x = 0 := by
      have h2 := hok.2.1
      rw [hcontent] at h2
      simp at h2
      omega
    have htxz : st.tx = 0 := by
      have h3 := hok.2.2
      rw [hcontent, hxz] at h3
      simpa [visual_col] using h3
    have hbuf : buf_char_insert st.buf (castSize st.y) c (castSize st.x)
        = buf_set_slot st.buf (castSize st.y)
            (some { s := [c], tabs := if c = 9 then 1 else 0 }) := by
      unfold buf_char_insert
      simp only [if_neg hge1, if_neg hge2]
      rw [hc]
    rw [hbuf]
    have hslot : buf_slot (buf_set_slot st.buf (castSize st.y)
        (some { s := [c], tabs := if c = 9 then 1 else 0 })) st.y
        = some { s := [c], tabs := if c = 9 then 1 else 0 } := by
      unfold buf_slot
      rw [buf_set_slot_getD, if_pos ⟨rfl, hbound⟩]
    refine cursor_ok_mk_ins st _ _ _ (by omega) ?_ ?_
    · rw [hslot]
      simp only [slot_content, List.length_cons, List.length_nil]
      omega
    · rw [hslot]
      simp only [slot_content]
      have htn : (st.x + 1).toNat = 1 := by omega
      rw [htn, htxz, hwidth]
      have : visual_col [c] 1 = if c = 9 then 8 else 1 := by
        simp [visual_col, visual_width, TAB_WIDTH]
      rw [this]
      omega
  | some r =>
    have hcontent : content_at st = r.s := by
      unfold content_at buf_slot slot_content
      rw [hc]
    have hxle : st.x.toNat ≤ r.s.length := by
      have h2 := hok.2.1
      rw [hcontent] at h2
      exact h2
    have hbuf : buf_char_insert st.buf (castSize st.y) c (castSize st.x)
        = buf_set_slot st.buf (castSize st.y)
            (some (row_insertchar r c st.x.toNat ROW_SIZE_INCREMENT)) := by
      unfold buf_char_insert
      simp only [if_neg hge1, if_neg hge2]
      rw [hc, hcx]
    rw [hbuf]
    obtain ⟨hil, hit⟩ := row_insertchar_spec r c st.x.toNat ROW_SIZE_INCREMENT hxle
    have hslot : buf_slot (buf_set_slot st.buf (castSize st.y)
        (some (row_insertchar r c st.x.toNat ROW_SIZE_INCREMENT))) st.y
        = some (row_insertchar r c st.x.toNat ROW_SIZE_INCREMENT) := by
      unfold buf_slot
      rw [buf_set_slot_getD, if_pos ⟨rfl, hbound⟩]
    refine cursor_ok_mk_ins st _ _ _ (by omega) ?_ ?_
    · rw [hslot]
      simp only [slot_content]
      omega
    · rw [hslot]
      simp only [slot_content]
      have htn : (st.x + 1).toNat = st.x.toNat + 1 := by omega
      rw [htn]
      have hvc : visual_col (row_insertchar r c st.x.toNat ROW_SIZE_INCREMENT).s
          (st.x.toNat + 1) = visual_col r.s st.x.toNat + visual_width c := by
        rw [visual_col_of_take _ _ _ hit]
        rw [List.map_append, List.sum_append]
        simp [visual_col]
      rw [hvc, hok.2.2, hcontent, hwidth]
      have hvw : visual_width c = if c = 9 then 8 else 1 := rfl
      rw [hvw]
      push_cast
      ring

theorem cursor_startnextrow_zero (st : EdState) (strip : Bool)
    (h1 : st.buf.len ≠ 0) (h2 : castSize st.y < st.buf.len - 1) :
    cursor_ok (cursor_startnextrow st strip) := by
  unfold cursor_startnextrow
  dsimp only
  rw [if_pos ⟨h1, h2⟩]
  exact cursor_ok_of_zero _ rfl rfl

theorem insert_newline_ok (st : EdState)
    (hy0 : 0 ≤ st.y) (hylen : st.y.toNat < st.buf.len)
    (hlen : st.buf.len ≤ st.buf.slots.length)
    (hsmall : st.buf.slots.length < 2 ^ 31) :
    cursor_ok (insert_newline st) := by
  have hcy : castSize st.y = st.y.toNat := castSize_eq_toNat _ hy0 (by omega)
  unfold insert_newline
  by_cases h1 : BUF_ELEM_NOTEMPTY st.buf st.y = true ∧
      castSize st.x < buf_elem_len st.buf (castSize st.y)
  · rw [if_pos h1]
    obtain ⟨r, hr, -⟩ := notempty_some st.buf st.y h1.1
    have hr' : buf_slot st.buf st.y = some r := hr
    rw [hr']
    refine cursor_startnextrow_zero _ _ ?_ ?_ <;> dsimp only
    · rw [buf_set_slot_len, buf_set_slot_len,
        buf_shift_down_len _ _ _ (by decide) hlen]
      omega
    · rw [buf_set_slot_len, buf_set_slot_len,
        buf_shift_down_len _ _ _ (by decide) hlen, hcy]
      omega
  · rw [if_neg h1]
    by_cases h2 : castSize st.y < st.buf.len - 1
    · rw [if_pos h2]
      refine cursor_startnextrow_zero _ _ ?_ ?_ <;> dsimp only
      · rw [buf_set_slot_len, buf_shift_down_len _ _ _ (by decide) hlen]
        omega
      · rw [buf_set_slot_len, buf_shift_down_len _ _ _ (by decide) hlen, hcy]
        omega
    · rw [if_neg h2]
      refine cursor_startnextrow_zero _ _ ?_ ?_ <;> dsimp only
      · omega
      · rw [hcy]
        omega

theorem remove_newline_ok (st : EdState) (hok : cursor_ok st) (hw : state_wf st)
    (hx : st.x = 0) (hy : st.y ≠ 0) :
    cursor_ok (remove_newline st) := by
  obtain ⟨hlen1, hlen2, hy0, hylen, hempty, htabs, hh, hsmall, hrows⟩ := hw
  have hy1 : 1 ≤ st.y := by omega
  have hyn1 : 1 ≤ st.y.toNat := by omega
  have hcy : castSize st.y = st.y.toNat := castSize_eq_toNat _ hy0 (by omega)
  have hcy1 : castSize (st.y - 1) = st.y.toNat - 1 := by
    rw [castSize_eq_toNat _ (by omega) (by omega)]
    omega
  have hcyp : castSize (st.y + 1) = st.y.toNat + 1 := by
    rw [castSize_eq_toNat _ (by omega) (by omega)]
    omega
  have htx0 : st.tx = 0 := by
    have h3 := hok.2.2
    rw [hx] at h3
    simpa [visual_col] using h3
  unfold remove_newline
  by_cases hc1 : BUF_ELEM_NOTEMPTY st.buf st.y = true ∧
      BUF_ELEM_NOTEMPTY st.buf (st.y - 1) = true
  · rw [if_pos hc1]
    obtain ⟨cur, hcur, hcurlen⟩ := notempty_some st.buf st.y hc1.1
    obtain ⟨prev, hprev, hprevlen⟩ := notempty_some st.buf (st.y - 1) hc1.2
    have hcur' : buf_slot st.buf st.y = some cur := hcur
    have hprev' : buf_slot st.buf (st.y - 1) = some prev := hprev
    rw [hcur', hprev']
    dsimp only
    have hslot : buf_slot (buf_shift_up (buf_set_slot st.buf (castSize (st.y - 1))
        (some ⟨prev.s ++ cur.s, prev.tabs⟩)) (castSize (st.y + 1))) (st.y - 1)
        = some ⟨prev.s ++ cur.s, prev.tabs⟩ := by
      unfold buf_slot
      rw [buf_shift_up_getD, buf_set_slot_len, buf_set_slot_length, hcy1, hcyp]
      rw [if_neg (by omega), if_pos (by omega), if_neg (by omega)]
      rw [buf_set_slot_getD, if_pos ⟨rfl, by omega⟩]
    refine cursor_ok_mk_buf st _ _ _ _ _ ?_ ?_ ?_
    · omega
    · rw [hslot]
      simp only [slot_content, List.length_append]
      omega
    · rw [hslot]
      simp only [slot_content]
      rw [buf_elem_visual_len_eq st.buf (castSize (st.y - 1)) prev hprev
        (htabs _ prev hprev)]
      have htn : ((prev.s.length : Int)).toNat = prev.s.length := by omega
      rw [htn, visual_col_append_left]
  · rw [if_neg hc1]
    by_cases hc2 : BUF_ELEM_NOTEMPTY st.buf (st.y - 1) = true
    · rw [if_pos hc2]
      obtain ⟨prev, hprev, hprevlen⟩ := notempty_some st.buf (st.y - 1) hc2
      dsimp only
      have hslot : buf_slot (buf_shift_up st.buf (castSize (st.y + 1))) (st.y - 1)
          = some prev := by
        unfold buf_slot
        rw [buf_shift_up_getD, hcy1, hcyp]
        rw [if_neg (by omega), if_pos (by omega), if_neg (by omega)]
        rw [← hcy1, hprev]
      have hel : buf_elem_len st.buf (castSize (st.y - 1)) = prev.s.length := by
        unfold buf_elem_len
        rw [hprev]
      have hvl : buf_elem_visual_len st.buf (castSize st.y - 1)
          = visual_col prev.s prev.s.length := by
        have : castSize st.y - 1 = castSize (st.y - 1) := by omega
        rw [this]
        exact buf_elem_visual_len_eq st.buf (castSize (st.y - 1)) prev hprev
          (htabs _ prev hprev)
      refine cursor_ok_mk_buf st _ _ _ _ _ ?_ ?_ ?_
      · rw [hel]
        omega
      · rw [hslot, hel]
        simp only [slot_content]
        omega
      · rw [hslot, hel, hvl]
        simp only [slot_content]
        have htn : ((prev.s.length : Int)).toNat = prev.s.length := by omega
        rw [htn]
    · rw [if_neg hc2]
      refine cursor_ok_mk_buf st _ _ _ _ _ ?_ ?_ ?_
      · rw [hx]
      · rw [hx]
        simp
      · rw [hx, htx0]
        simp [visual_col]

theorem backspace_remove_ok (st : EdState) (hok : cursor_ok st) (hw : state_wf st)
    (hx : st.x ≠ 0) (hne : BUF_ELEM_NOTEMPTY st.buf st.y = true) :
    cursor_ok { st with modified := true, buf := buf_char_remove st.buf (castSize st.y) (castSize (st.x - 1)), x := st.x - 1, tx := st.tx - ((if row_byte_at st.buf st.y (st.x - 1) = 9 then TAB_WIDTH else 1 : Nat) : Int) } := by
  obtain ⟨r, hr, hrlen⟩ := notempty_some st.buf st.y hne
  have hsm := content_at_small st hw
  have hx0 := hok.1
  have hx1 : 1 ≤ st.x := by omega
  have hcontent : content_at st = r.s := by
    unfold content_at buf_slot slot_content
    rw [hr]
  have hxle : st.x.toNat ≤ r.s.length := by
    have h2 := hok.2.1
    rw [hcontent] at h2
    exact h2
  have hcx1 : castSize (st.x - 1) = st.x.toNat - 1 := by
    rw [hcontent] at hsm
    rw [castSize_eq_toNat _ (by omega) (by omega)]
    omega
  have hidx : st.x.toNat - 1 < r.s.length := by omega
  have hbound : castSize st.y < st.buf.slots.length := (notempty_spec st.buf st.y hne).1
  have hbuf : buf_char_remove st.buf (castSize st.y) (castSize (st.x - 1))
      = buf_set_slot st.buf (castSize st.y)
          (some (row_removechar r (st.x.toNat - 1))) := by
    unfold buf_char_remove
    rw [if_pos hbound, hr, hcx1]
  obtain ⟨hrl, hrt⟩ := row_removechar_spec r (st.x.toNat - 1) hidx
  rw [hbuf]
  have hslot : buf_slot (buf_set_slot st.buf (castSize st.y)
      (some (row_removechar r (st.x.toNat - 1)))) st.y
      = some (row_removechar r (st.x.toNat - 1)) := by
    unfold buf_slot
    rw [buf_set_slot_getD, if_pos ⟨rfl, hbound⟩]
  have hbyte : row_byte_at st.buf st.y (st.x - 1) = r.s.getD (st.x.toNat - 1) 0 := by
    rw [row_byte_at_eq, hcx1]
    unfold buf_slot slot_content
    rw [hr]
  refine cursor_ok_mk_ins st _ _ _ (by omega) ?_ ?_
  · rw [hslot]
    simp only [slot_content]
    omega
  · rw [hslot]
    simp only [slot_content]
    have htn : (st.x - 1).toNat = st.x.toNat - 1 := by omega
    rw [htn]
    have hpre : visual_col (row_removechar r (st.x.toNat - 1)).s (st.x.toNat - 1)
        = visual_col r.s (st.x.toNat - 1) :=
      visual_col_take_eq _ _ _ hrt
    rw [hpre]
    have hsucc := visual_col_succ r.s (st.x.toNat - 1) hidx
    have hxs : st.x.toNat - 1 + 1 = st.x.toNat := by omega
    rw [hxs] at hsucc
    rw [hok.2.2, hcontent, hbyte, hsucc, visual_width_def]
    by_cases h9 : r.s.getD (st.x.toNat - 1) 0 = 9
    · rw [if_pos h9, if_pos h9]
      unfold TAB_WIDTH
      push_cast
      ring
    · rw [if_neg h9, if_neg h9]
      push_cast
      ring

theorem cursor_lineend_same (st : EdState) (s : Bool) :
    (cursor_lineend st s).buf = st.buf ∧ (cursor_lineend st s).y = st.y := by
  unfold cursor_lineend
  dsimp only
  split
  · exact ⟨rfl, rfl⟩
  · exact ⟨rfl, rfl⟩

theorem cursor_endpreviousrow_same (st : EdState) :
    (cursor_endpreviousrow st).buf = st.buf ∧
    ((cursor_endpreviousrow st).y = st.y ∨
      (st.y ≠ 0 ∧ (cursor_endpreviousrow st).y = st.y - 1)) := by
  unfold cursor_endpreviousrow
  by_cases h : st.y ≠ 0
  · rw [if_pos h]
    exact ⟨rfl, Or.inr ⟨h, rfl⟩⟩
  · rw [if_neg h]
    exact ⟨rfl, Or.inl rfl⟩

theorem key_insert_ok (st : EdState) (ev : TermEvent) (hw : state_wf st)
    (hok : cursor_ok st) (hv : validEvent ev)
    (hdel : ¬(ev.key = TermKey.delete ∧ BUF_ELEM_NOTEMPTY st.buf st.y = true ∧
        castSize st.x = buf_elem_len st.buf (castSize st.y))) :
    cursor_ok (key_insert st ev) := by
  obtain ⟨k, ch⟩ := ev
  cases k <;> simp only [key_insert]
  · exact hok
  · exact cursor_up_ok st hok
  · exact cursor_down_ok st hok
  · exact cursor_right_ok st true hok hw
  · exact cursor_left_ok st hok hw
  · exact cursor_linestart_ok st
  · exact cursor_lineend_ok st true hw
  · exact hok
  · -- delete
    by_cases hne : BUF_ELEM_NOTEMPTY st.buf st.y = true
    · rw [if_pos hne]
      have hcx : castSize st.x = st.x.toNat := castSize_x st hok hw
      have hxe : castSize st.x ≠ buf_elem_len st.buf (castSize st.y) :=
        fun h => hdel ⟨rfl, hne, h⟩
      have hle : st.x.toNat ≤ (content_at st).length := hok.2.1
      have hcl := content_len_eq st
      exact buf_char_remove_ok st hok hw hne (by omega)
    · rw [if_neg hne]
      exact hok
  · exact cursor_up_page_ok st hok
  · exact cursor_down_page_ok st hok
  · -- backspace
    by_cases hb1 : st.x ≠ 0 ∧ BUF_ELEM_NOTEMPTY st.buf st.y = true
    · rw [if_pos hb1]
      exact backspace_remove_ok st hok hw hb1.1 hb1.2
    · rw [if_neg hb1]
      by_cases hb2 : st.x = 0 ∧ st.y ≠ 0
      · rw [if_pos hb2]
        exact remove_newline_ok _ hok hw hb2.1 hb2.2
      · rw [if_neg hb2]
        exact hok
  · -- enter
    obtain ⟨hlen1, hlen2, hy0, hylen, -, -, -, hsmall, -⟩ := hw
    exact insert_newline_ok _ hy0 hylen hlen2 hsmall
  · -- tab
    by_cases hg : st.tx < st.w - (TAB_WIDTH : Int)
    · rw [if_pos hg]
      exact buf_char_insert_ok st 9 8 hok hw (by norm_num)
    · rw [if_neg hg]
      exact hok
  · exact hok
  · -- char
    by_cases hg : st.tx < st.w - 1
    · rw [if_pos hg]
      have hch : 32 ≤ ch ∧ ch ≤ 126 := hv rfl
      have hc9 : ch.toNat ≠ 9 := by omega
      exact buf_char_insert_ok st ch.toNat 1 hok hw (by rw [if_neg hc9])
    · rw [if_neg hg]
      exact hok

theorem key_normal_ok (st : EdState) (ev : TermEvent) (sz : Option (Int × Int))
    (st2 : EdState) (hw : state_wf st) (hok : cursor_ok st)
    (hctrlL : ¬(ev.key = TermKey.ctrl ∧ ev.ch = 76))
    (hcolon : ¬(ev.key = TermKey.char ∧ ev.ch = 58))
    (hdel : ¬((ev.key = TermKey.delete ∨ (ev.key = TermKey.char ∧ ev.ch = 120)) ∧
        BUF_ELEM_NOTEMPTY st.buf st.y = true ∧
        castSize st.x = buf_elem_len st.buf (castSize st.y)))
    (hres : key_normal st ev sz = some st2) :
    cursor_ok st2 := by
  obtain ⟨k, ch⟩ := ev
  cases k <;> simp only [key_normal, Option.some.injEq] at hres
  · subst hres; exact hok
  · subst hres; exact cursor_up_ok st hok
  · subst hres; exact cursor_down_ok st hok
  · subst hres; exact cursor_right_ok st true hok hw
  · subst hres; exact cursor_left_ok st hok hw
  · subst hres; exact cursor_linestart_ok st
  · subst hres; exact cursor_lineend_ok st true hw
  · subst hres; exact hok
  · -- delete
    subst hres
    by_cases hne : BUF_ELEM_NOTEMPTY st.buf st.y = true
    · rw [if_pos hne]
      have hcx : castSize st.x = st.x.toNat := castSize_x st hok hw
      have hxe : castSize st.x ≠ buf_elem_len st.buf (castSize st.y) :=
        fun h => hdel ⟨Or.inl rfl, hne, h⟩
      have hle : st.x.toNat ≤ (content_at st).length := hok.2.1
      have hcl := content_len_eq st
      exact buf_char_remove_ok st hok hw hne (by omega)
    · rw [if_neg hne]
      exact hok
  · subst hres; exact cursor_up_page_ok st hok
  · subst hres; exact cursor_down_page_ok st hok
  · -- backspace
    subst hres
    by_cases hb : st.x = 0 ∧ st.y ≠ 0
    · rw [if_pos hb]
      exact cursor_endpreviousrow_ok st hok hw
    · rw [if_neg hb]
      exact cursor_left_ok st hok hw
  · subst hres
    exact cursor_startnextrow_ok st false hok
  · subst hres
    exact hok
  · -- ctrl
    rw [if_neg (fun h => hctrlL ⟨rfl, h⟩)] at hres
    by_cases h98 : ch = 98
    · rw [if_pos h98, Option.some.injEq] at hres
      subst hres
      exact cursor_up_page_ok st hok
    · rw [if_neg h98] at hres
      by_cases h102 : ch = 102
      · rw [if_pos h102, Option.some.injEq] at hres
        subst hres
        exact cursor_down_page_ok st hok
      · rw [if_neg h102, Option.some.injEq] at hres
        subst hres
        exact hok
  · -- char
    subst hres
    by_cases h104 : ch = 104
    · rw [if_pos h104]
      exact cursor_left_ok st hok hw
    · rw [if_neg h104]
      by_cases h106 : ch = 106
      · rw [if_pos h106]
        exact cursor_down_ok st hok
      · rw [if_neg h106]
        by_cases h107 : ch = 107
        · rw [if_pos h107]
          exact cursor_up_ok st hok
        · rw [if_neg h107]
          by_cases h108 : ch = 108
          · rw [if_pos h108]
            exact cursor_right_ok st true hok hw
          · rw [if_neg h108]
            by_cases h48 : ch = 48
            · rw [if_pos h48]
              exact cursor_linestart_ok st
            · rw [if_neg h48]
              by_cases h36 : ch = 36
              · rw [if_pos h36]
                exact cursor_lineend_ok st true hw
              · rw [if_neg h36]
                by_cases h94 : ch = 94
                · rw [if_pos h94]
                  exact cursor_nonblank_ok st hok
                · rw [if_neg h94]
                  by_cases h105 : ch = 105
                  · rw [if_pos h105]
                    exact hok
                  · rw [if_neg h105]
                    by_cases h73 : ch = 73
                    · rw [if_pos h73]
                      exact cursor_linestart_ok st
                    · rw [if_neg h73]
                      by_cases h97 : ch = 97
                      · rw [if_pos h97]
                        exact cursor_right_ok st false hok hw
                      · rw [if_neg h97]
                        by_cases h65 : ch = 65
                        · rw [if_pos h65]
                          exact cursor_lineend_ok st false hw
                        · rw [if_neg h65]
                          by_cases h111 : ch = 111
                          · rw [if_pos h111]
                            obtain ⟨hlen1, hlen2, hy0, hylen, -, -, -, hsmall, -⟩ := hw
                            obtain ⟨hbeq, hyeq⟩ := cursor_lineend_same st false
                            refine insert_newline_ok _ ?_ ?_ ?_ ?_
                            · show 0 ≤ (cursor_lineend st false).y
                              rw [hyeq]
                              omega
                            · show (cursor_lineend st false).y.toNat <
                                (cursor_lineend st false).buf.len
                              rw [hyeq, hbeq]
                              omega
                            · show (cursor_lineend st false).buf.len ≤
                                (cursor_lineend st false).buf.slots.length
                              rw [hbeq]
                              omega
                            · show (cursor_lineend st false).buf.slots.length < 2 ^ 31
                              rw [hbeq]
                              omega
                          · rw [if_neg h111]
                            by_cases h79 : ch = 79
                            · rw [if_pos h79]
                              obtain ⟨hlen1, hlen2, hy0, hylen, -, -, -, hsmall, -⟩ := hw
                              obtain ⟨hbeq, hyor⟩ := cursor_endpreviousrow_same st
                              refine insert_newline_ok _ ?_ ?_ ?_ ?_
                              · show 0 ≤ (cursor_endpreviousrow st).y
                                rcases hyor with h | ⟨hz, h⟩ <;> rw [h] <;> omega
                              · show (cursor_endpreviousrow st).y.toNat <
                                  (cursor_endpreviousrow st).buf.len
                                rw [hbeq]
                                rcases hyor with h | ⟨hz, h⟩ <;> rw [h] <;> omega
                              · show (cursor_endpreviousrow st).buf.len ≤
                                  (cursor_endpreviousrow st).buf.slots.length
                                rw [hbeq]
                                omega
                              · show (cursor_endpreviousrow st).buf.slots.length < 2 ^ 31
                                rw [hbeq]
                                omega
                            · rw [if_neg h79]
                              by_cases h120 : ch = 120
                              · rw [if_pos h120]
                                by_cases hne : BUF_ELEM_NOTEMPTY st.buf st.y = true
                                · rw [if_pos hne]
                                  have hcx : castSize st.x = st.x.toNat :=
                                    castSize_x st hok hw
                                  have hxe : castSize st.x ≠
                                      buf_elem_len st.buf (castSize st.y) :=
                                    fun h => hdel ⟨Or.inr ⟨rfl, h120⟩, hne, h⟩
                                  have hle : st.x.toNat ≤ (content_at st).length := hok.2.1
                                  have hcl := content_len_eq st
                                  exact buf_char_remove_ok st hok hw hne (by omega)
                                · rw [if_neg hne]
                                  exact hok
                              · rw [if_neg h120]
                                rw [if_neg (fun h => hcolon ⟨rfl, h⟩)]
                                exact hok

theorem state_wf_singleton (st : EdState) (r : Row)
    (hslots : st.buf.slots = [some r]) (hlen : st.buf.len = 1)
    (hy : st.y = 0) (hh : 2 ≤ st.h) (htabs : r.tabsOk) (hsmall : r.s.length < 2 ^ 31) :
    state_wf st := by
  refine ⟨by omega, ?_, by omega, ?_, ?_, ?_, hh, ?_, ?_⟩
  · rw [hslots]
    simp [hlen]
  · rw [hy, hlen]
    simp
  · intro i hi
    rw [hslots]
    refine getD_none_of_le _ _ ?_
    simp only [List.length_cons, List.length_nil]
    omega
  · intro i r2 h
    rw [hslots] at h
    cases i with
    | zero =>
      simp only [List.getD_cons_zero] at h
      injection h with h
      subst h
      exact htabs
    | succ n =>
      rw [getD_none_of_le _ _ (by simp)] at h
      exact Option.noConfusion h
  · rw [hslots]
    norm_num
  · intro i r2 h
    rw [hslots] at h
    cases i with
    | zero =>
      simp only [List.getD_cons_zero] at h
      injection h with h
      subst h
      exact hsmall
    | succ n =>
      rw [getD_none_of_le _ _ (by simp)] at h
      exact Option.noConfusion h
/-- C3: the claim states that `remove_char` clamps an index greater than
`len - 1` to `len - 1` and removes the byte there, decrementing `tabs`
exactly when that byte is a tab.  The code instead clamps `index > len`
to `len`, so for `index = len` (greater than `len - 1`) it reads the NUL
terminator instead of the last byte: on the one-byte row containing a
single tab (`len = 1`, `tabs = 1`), removal at index 1 drops the tab from
the content but leaves `tabs = 1`, breaking the tab-count invariant —
the claim requires the result `tabs = 0`. -/
theorem C3_remove_at_end_divergence :
    row_removechar ⟨[9], 1⟩ 1 = ⟨[], 1⟩ ∧
    count_tabs (row_removechar ⟨[9], 1⟩ 1).s = 0 ∧
    ¬ Row.tabsOk (row_removechar ⟨[9], 1⟩ 1) := by
  constructor
  · rfl
  constructor
  · rfl
  · intro h
    exact absurd h (by unfold Row.tabsOk count_tabs; decide)

/-!
## Claim C4 — buffer resize that shrinks
-/

/-- C4: the claim (and spec §4.2/§9a) requires that after
`resize(buf, new_cap)` with `new_cap < cap`, `len` becomes one plus the
index of the last non-empty slot.  The code sets `len = new_cap - 1` and
scans down, which yields the index itself, one too small, whenever slot
`new_cap - 1` is populated: on a buffer with slots 0..2 populated,
`cap = 4`, `len = 3`, resizing to 2 leaves `len = 1` although slot 1 is
still populated — the spec-mandated value (`spec_shrunk_len`) is 2. -/
theorem C4_resize_shrink_divergence :
    (buf_resize ⟨[some ⟨[97], 0⟩, some ⟨[98], 0⟩, some ⟨[99], 0⟩, none], 3⟩ 2).len = 1 ∧
    spec_shrunk_len [some ⟨[97], 0⟩, some ⟨[98], 0⟩, some ⟨[99], 0⟩, none] 2 = 2 := by
  decide

/-!
## Claim C5 — `shift_up` with `from = 0`
-/

/-- C5 (counterexample): the claim asserts that `shift_up(buf, 0)` reads
and writes no slot outside `[0, len)`.  On a one-line buffer
(`len = 1`), the `memmove` destination for `from = 0` starts at element
offset `0 - 1 = -1`, before the slots array: `-1` is among the written
offsets and is outside `[0, 1)`.  (In C this is an out-of-bounds write.) -/
theorem C5_out_of_bounds_write_counterexample :
    (-1 : Int) ∈ shift_up_write_targets 1 0 ∧ (-1 : Int) < 0 := by
  decide

/-- C5 (amended): `shift_up(buf, 0)` yields exactly the same slots array
and `len` as `shift_up(buf, 1)` — slots `1..len` move left by one over
slot 0, the previously last slot becomes empty, `len` decreases by one —
but the underlying `memmove` additionally writes one element at offset
`-1`, outside the array, so the no-out-of-range-access clause of the
claim fails. -/
theorem C5_shift_up_from_zero_amended (b : Buf) :
    buf_shift_up b 0 = buf_shift_up b 1 := by
  simp [buf_shift_up, Nat.le_add_left]

/-!
## Claim C7 — insert then remove is the identity on a row
-/

/-- C7 (counterexample): the claim asserts that inserting then removing at
the same index is the identity on the row for every index, including
`index > len`.  Inserting a tab into the empty row at index 1 (clamped to
0) and then removing at index 1 yields a row with empty content but
`tabs = 1`: the tab count is not restored, because `remove_char` at
`index = len` reads the NUL terminator instead of the inserted tab. -/
theorem C7_insert_remove_counterexample :
    row_removechar (row_insertchar ⟨[], 0⟩ 9 1 ROW_SIZE_INCREMENT) 1 ≠ ⟨[], 0⟩ := by
  decide

/-- C7 (amended): `insert_char(row, c, index, grow)` followed by
`remove_char(row, index)` is the identity on the row — content, length
and `tabs` — whenever `index ≤ len` or `c` is not a tab.  (In the one
remaining case, `index > len` with `c` a tab, the content and length are
restored but `tabs` stays one too high; see the counterexample.) -/
theorem C7_insert_remove_identity_amended (r : Row) (c index grow : Nat)
    (h : index ≤ r.s.length ∨ c ≠ 9) :
    row_removechar (row_insertchar r c index grow) index = r := by
  rcases r with ⟨l, t⟩
  have h : index ≤ l.length ∨ c ≠ 9 := h
  rcases le_or_lt index l.length with hle | hgt
  · have ht : (l.take index).length = index := by
      simp [List.length_take, Nat.min_eq_left hle]
    have hmin : min index l.length = index := Nat.min_eq_left hle
    have hlen : (l.take index ++ c :: l.drop index).length = l.length + 1 := by
      simp [List.length_take]; omega
    have hget : (l.take index ++ c :: l.drop index).getD index 0 = c := by
      rw [List.getD_eq_getElem?_getD, List.getElem?_append_right (by omega)]
      simp [ht]
    have htake : (l.take index ++ c :: l.drop index).take index = l.take index := by
      rw [List.take_append_eq_append_take]; simp [ht]
    have hdrop : (l.take index ++ c :: l.drop index).drop (index + 1) = l.drop index := by
      rw [List.drop_append_eq_append_drop]; simp [ht]
    have hmin2 : min index (l.length + 1) = index := by omega
    simp only [row_insertchar, row_removechar, hmin]
    rw [if_neg (by simp [hlen])]
    simp only [hlen, hmin2, rowByte, hget, htake, hdrop]
    rw [List.take_append_drop]
    simp only [Nat.add_sub_cancel, List.take_length]
    by_cases h9 : c = 9
    · simp [h9]
    · simp [h9]
  · have hc9 : c ≠ 9 := h.resolve_left (by omega)
    have hmin : min index l.length = l.length := Nat.min_eq_right (Nat.le_of_lt hgt)
    simp only [row_insertchar, row_removechar, hmin]
    rw [List.take_length, List.drop_length]
    have hlen : (l ++ c :: List.nil).length = l.length + 1 := by simp
    rw [if_neg (by simp)]
    have hmin2 : min index (l.length + 1) = l.length + 1 := by omega
    simp only [hlen, hmin2, rowByte]
    have hget : (l ++ c :: List.nil).getD (l.length + 1) 0 = 0 := by
      rw [List.getD_eq_getElem?_getD, List.getElem?_eq_none (by simp)]
      rfl
    rw [hget]
    simp [hc9, List.take_append_eq_append_take]

/-- C7 (witness): the amended identity applied to the row with content
`"a\t"`, inserting a tab at index 1 (within the row). -/
theorem C7_insert_remove_identity_witness :
    row_removechar (row_insertchar ⟨[97, 9], 1⟩ 9 1 ROW_SIZE_INCREMENT) 1 = ⟨[97, 9], 1⟩ :=
  C7_insert_remove_identity_amended ⟨[97, 9], 1⟩ 9 1 ROW_SIZE_INCREMENT
    (Or.inl (by decide))

/-!
## Claim C8 — the shift pair law
-/

/-- C8 (counterexample): the claim asserts that after
`shift_down(buf, k, grow)`, writing a row into slot `k`, then
`shift_up(buf, k + 1)`, slot `k` holds exactly the written value.  On the
one-line buffer holding row `"a"` with `k = 0` and written value `"b"`,
the pair leaves slot 0 holding the original `"a"`, not the written `"b"`:
`shift_down` duplicates the old slot `k` into slot `k + 1`, and
`shift_up(k + 1)` copies it back over the written slot. -/
theorem C8_written_slot_discarded_counterexample :
    (buf_shift_up (buf_set_slot
        (buf_shift_down ⟨[some ⟨[97], 0⟩, none], 1⟩ 0 BUF_SIZE_INCREMENT)
        0 (some ⟨[98], 0⟩)) 1).slots.getD 0 none = some ⟨[97], 0⟩ ∧
    (⟨[97], 0⟩ : Row) ≠ ⟨[98], 0⟩ := by
  constructor
  · rfl
  · decide

/-- C8 (amended): for every buffer satisfying the documented invariants
(`k ≤ len`, `len ≤ cap`, the slot at index `len` empty) and any positive
growth increment, `shift_down(buf, k, grow)`, then writing any value into
slot `k`, then `shift_up(buf, k + 1)`, restores `buf.len` and the content
of every slot — including slot `k`, which again holds its original
content; the value written in between is discarded. -/
theorem C8_shift_pair_restores_amended (b : Buf) (k : Nat) (v : Option Row) (grow : Nat)
    (hk : k ≤ b.len) (hlen : b.len ≤ b.slots.length) (hgrow : 1 ≤ grow)
    (hend : b.slots.getD b.len none = none) :
    (buf_shift_up (buf_set_slot (buf_shift_down b k grow) k v) (k + 1)).len = b.len ∧
    ∀ i : Nat,
      (buf_shift_up (buf_set_slot (buf_shift_down b k grow) k v) (k + 1)).slots.getD i none
        = b.slots.getD i none := by
  have hDlen : (buf_shift_down b k grow).len = b.len + 1 :=
    buf_shift_down_len b k grow hgrow hlen
  have hDlength1 : b.len + 1 ≤ (buf_shift_down b k grow).slots.length := by
    rw [buf_shift_down_length b k grow hgrow hlen]
    split <;> omega
  have hDlength2 : b.slots.length ≤ (buf_shift_down b k grow).slots.length := by
    rw [buf_shift_down_length b k grow hgrow hlen]
    split <;> omega
  constructor
  · rw [buf_shift_up_len, buf_set_slot_len, hDlen]
    omega
  · intro i
    rw [buf_shift_up_getD, buf_set_slot_len, buf_set_slot_length, hDlen]
    by_cases hi_end : i = b.len
    · subst hi_end
      rw [if_pos ⟨by omega, by omega⟩, hend]
    · rw [if_neg (by omega)]
      by_cases hiL : i < (buf_shift_down b k grow).slots.length
      · rw [if_pos hiL]
        by_cases hmid : k ≤ i ∧ i < b.len
        · rw [if_pos ⟨by omega, by omega⟩]
          rw [buf_set_slot_getD]
          rw [if_neg (by omega)]
          rw [buf_shift_down_getD b k grow hgrow hlen]
          rw [if_pos (by omega)]
          rw [if_pos ⟨by omega, by omega⟩]
          simp only [Nat.add_sub_cancel]
        · rw [if_neg (by omega)]
          rw [buf_set_slot_getD]
          rw [if_neg (by omega)]
          rw [buf_shift_down_getD b k grow hgrow hlen]
          rw [if_pos hiL]
          rw [if_neg (by omega)]
      · rw [if_neg hiL]
        rw [getD_none_of_le b.slots i (by omega)]

/-- C8 (witness): the amended law applied to a concrete two-slot buffer,
`k = 1`, written value the row `"b"`. -/
theorem C8_shift_pair_restores_witness :
    (buf_shift_up (buf_set_slot
        (buf_shift_down ⟨[some ⟨[97], 0⟩, none], 1⟩ 1 BUF_SIZE_INCREMENT)
        1 (some ⟨[98], 0⟩)) 2).len = 1 ∧
    ∀ i : Nat,
      (buf_shift_up (buf_set_slot
          (buf_shift_down ⟨[some ⟨[97], 0⟩, none], 1⟩ 1 BUF_SIZE_INCREMENT)
          1 (some ⟨[98], 0⟩)) 2).slots.getD i none
        = (Buf.mk [some ⟨[97], 0⟩, none] 1).slots.getD i none :=
  C8_shift_pair_restores_amended ⟨[some ⟨[97], 0⟩, none], 1⟩ 1 (some ⟨[98], 0⟩)
    BUF_SIZE_INCREMENT (by decide) (by decide) (by decide) (by decide)


/-!
## Claim C2 — round-trip through the file codec
-/

set_option maxRecDepth 8192 in
/-- C2 (counterexample): the claim requires that after a write-then-load
round trip, for each line index either both slots are empty or both hold
rows with identical bytes.  A buffer whose single line is an empty slot
is written as one bare newline; loading that file yields a present
zero-length row in slot 0, not an empty slot, so neither disjunct of the
claimed equality holds at `y = 0`. -/
theorem C2_roundtrip_counterexample :
    ¬ spec_slot_equal ((Buf.mk [none] 1).slots.getD 0 none)
      ((buf_from_file_bytes (buf_write_bytes ⟨[none], 1⟩)).slots.getD 0 none) := by
  intro h
  have hload : (buf_from_file_bytes (buf_write_bytes ⟨[none], 1⟩)).slots.getD 0 none
      = some ⟨[], 0⟩ := by rfl
  rcases h with ⟨ha, hb⟩ | ⟨ra, rb, ha, hb, hs⟩
  · rw [hload] at hb
    exact Option.noConfusion hb
  · exact Option.noConfusion ha

/-- C2 (amended): for every buffer whose line contents contain neither a
NUL byte nor a newline byte (the only buffers the editor builds), writing
with `overwrite = true` and loading back yields a buffer with the same
`len` in which, for every `y < len`, slot `y` is a present row whose
bytes equal the original line content — the row bytes for a present
slot, the empty byte string for an empty slot — with the matching tab
count.  Line contents round-trip exactly (each line is emitted followed
by exactly one newline, and load strips it), but slot emptiness does
not: an empty slot returns as a present zero-length row. -/
theorem C2_roundtrip_content_amended (b : Buf)
    (hbytes : ∀ i < b.len, ∀ x ∈ slot_content (b.slots.getD i none), x ≠ 0 ∧ x ≠ 10) :
    (buf_from_file_bytes (buf_write_bytes b)).len = b.len ∧
    ∀ y < b.len,
      (buf_from_file_bytes (buf_write_bytes b)).slots.getD y none
        = some ⟨slot_content (b.slots.getD y none),
                count_tabs (slot_content (b.slots.getD y none))⟩ := by
  have hw : buf_write_bytes b
      = (((List.range b.len).map (fun i => slot_content (b.slots.getD i none))).map
          (fun l => l ++ [10])).flatten := by
    unfold buf_write_bytes
    rw [List.map_map]
    rfl
  have hno10 : ∀ l ∈ (List.range b.len).map (fun i => slot_content (b.slots.getD i none)),
      10 ∉ l := by
    intro l hl
    rcases List.mem_map.1 hl with ⟨i, hi, rfl⟩
    intro hmem
    exact ((hbytes i (List.mem_range.1 hi) 10 hmem).2) rfl
  have hsplit : getline_split (buf_write_bytes b)
      = ((List.range b.len).map (fun i => slot_content (b.slots.getD i none))).map
          (fun l => l ++ [10]) := by
    rw [hw, getline_split_flatten _ hno10]
  have hlines_len : (getline_split (buf_write_bytes b)).length = b.len := by
    rw [hsplit]; simp
  unfold buf_from_file_bytes
  dsimp only
  constructor
  · rw [hlines_len]
  · intro y hy
    rw [file_grow_getD]
    obtain ⟨hf2, hflen, hfget⟩ :=
      fold_load_spec (getline_split (buf_write_bytes b)) (buf_create FILE_BUFFER_ROWS) 0
    rw [hfget y]
    rw [if_pos ⟨Nat.zero_le y, by omega⟩]
    have hline : (getline_split (buf_write_bytes b)).getD (y - 0) []
        = slot_content (b.slots.getD y none) ++ [10] := by
      rw [hsplit, Nat.sub_zero, List.map_map]
      have hmap := getD_range_map ([] : List Nat) b.len
        (fun i => slot_content (b.slots.getD i none) ++ [10]) y
      rw [show ((fun l => l ++ [10]) ∘ fun i => slot_content (b.slots.getD i none))
          = (fun i => slot_content (b.slots.getD i none) ++ [10]) from rfl]
      rw [hmap, if_pos hy]
    rw [hline]
    rw [load_row_line _ (fun x hx => (hbytes y hy x hx).1)]

set_option maxRecDepth 8192 in
/-- C2 (witness): the amended round trip applied to a concrete two-line
buffer holding the row `"h\t"` and an empty slot. -/
theorem C2_roundtrip_content_witness :
    (buf_from_file_bytes (buf_write_bytes ⟨[some ⟨[104, 9], 1⟩, none], 2⟩)).len = 2 ∧
    ∀ y < 2,
      (buf_from_file_bytes (buf_write_bytes ⟨[some ⟨[104, 9], 1⟩, none], 2⟩)).slots.getD y none
        = some ⟨slot_content ((Buf.mk [some ⟨[104, 9], 1⟩, none] 2).slots.getD y none),
                count_tabs (slot_content ((Buf.mk [some ⟨[104, 9], 1⟩, none] 2).slots.getD y none))⟩ :=
  C2_roundtrip_content_amended ⟨[some ⟨[104, 9], 1⟩, none], 2⟩ (by decide)

/-- C1 (amended): the cursor invariant `0 ≤ x ≤ row_len(y)` and
`tx = visual_col(y, x)` is preserved by every dispatched key event from a
well-formed state, except for the cases the counterexamples document: the
state must not be in command-line mode (where `tx` is the command-row
column), the event must not be normal-mode Ctrl-L (whose resize clamps
`tx` without moving `x` — see the counterexample), must not be the `:`
command prompt (which sets `tx = 1`), and must not be a Delete / normal
`x` with the cursor at the end of a non-empty row (where the C3
remove-at-end bug drops the last byte while the cursor stays past the new
end). -/
theorem C1_cursor_invariant_amended (st : EdState) (ev : TermEvent)
    (sz : Option (Int × Int)) (wr : WriteRes) (st2 : EdState)
    (hw : state_wf st) (hok : cursor_ok st) (hv : validEvent ev)
    (hmode : st.mode ≠ Mode.commandLine)
    (hctrlL : ¬(ev.key = TermKey.ctrl ∧ ev.ch = 76))
    (hcolon : ¬(st.mode = Mode.normal ∧ ev.key = TermKey.char ∧ ev.ch = 58))
    (hdel : ¬((ev.key = TermKey.delete ∨
        (st.mode = Mode.normal ∧ ev.key = TermKey.char ∧ ev.ch = 120)) ∧
        BUF_ELEM_NOTEMPTY st.buf st.y = true ∧
        castSize st.x = buf_elem_len st.buf (castSize st.y)))
    (hres : dispatch_key st ev sz wr = some st2) :
    cursor_ok st2 := by
  unfold dispatch_key at hres
  cases hm : st.mode with
  | commandLine => exact absurd hm hmode
  | insert =>
    rw [hm] at hres
    simp only [Option.some.injEq] at hres
    subst hres
    refine key_insert_ok st ev hw hok hv ?_
    intro hc
    exact hdel ⟨Or.inl hc.1, hc.2⟩
  | normal =>
    rw [hm] at hres
    refine key_normal_ok st ev sz st2 hw hok hctrlL ?_ ?_ hres
    · intro hc
      exact hcolon ⟨hm, hc⟩
    · intro hc
      refine hdel ⟨?_, hc.2⟩
      rcases hc.1 with h | h
      · exact Or.inl h
      · exact Or.inr ⟨hm, h⟩

/-- C1 (witness): the amended invariant applied to a one-line state and
the normal-mode `j` key (a no-op at the last line). -/
theorem C1_cursor_invariant_amended_witness :
    dispatch_key c1demo ⟨TermKey.char, 106⟩ none WriteRes.ok = some c1demo ∧
    cursor_ok c1demo := by
  constructor
  · decide
  · exact C1_cursor_invariant_amended c1demo ⟨TermKey.char, 106⟩ none WriteRes.ok c1demo
      (state_wf_singleton c1demo c1demoRow rfl rfl rfl (by decide)
        (by unfold Row.tabsOk count_tabs; decide) (by decide))
      ⟨by decide, by decide, by decide⟩ (fun _ => by decide)
      (by decide) (by decide) (by decide) (by decide) (by decide)

/-- C1 counterexample: Ctrl-L (resize) clamps `tx` to `w - 2` without
recomputing `x`, breaking `tx = visual_col(y, x)`. -/
theorem C1_resized_clamp_counterexample :
    cursor_ok c1resizeDemo ∧ state_wf c1resizeDemo ∧
    dispatch_key c1resizeDemo ⟨TermKey.ctrl, 76⟩ (some (8, 24)) WriteRes.ok
      = some { c1resizeDemo with w := 8, h := 24, tx := 6 } ∧
    ¬ cursor_ok { c1resizeDemo with w := 8, h := 24, tx := 6 } := by
  refine ⟨⟨by decide, by decide, by decide⟩, ?_, by decide,
    fun h => absurd h.2.2 (by decide)⟩
  exact state_wf_singleton c1resizeDemo c1tabRow rfl rfl rfl (by decide)
    (by unfold Row.tabsOk count_tabs; decide) (by decide)

/-- C6: the decoder turns byte 0x02 into Ctrl with character 'B' (0x42) and
byte 0x06 into Ctrl 'F' (0x46), but `key_normal` compares the Ctrl character
against lowercase 'b' (0x62) and 'f' (0x66), so the Ctrl page keys fall
through to the no-op branch and never perform the page motions. -/
theorem C6_page_ctrl_keys_divergence :
    readkey [2] = some ⟨TermKey.ctrl, 66⟩ ∧
    readkey [6] = some ⟨TermKey.ctrl, 70⟩ ∧
    key_normal pageDemo ⟨TermKey.ctrl, 66⟩ none = some pageDemo ∧
    key_normal pageDemo ⟨TermKey.ctrl, 70⟩ none = some pageDemo ∧
    cursor_up_page pageDemo ≠ pageDemo ∧
    cursor_down_page pageDemo ≠ pageDemo := by decide

/-- C9: `:q` with a modified buffer refuses to quit — the state is returned
unchanged, `buffer modified` is printed in red on the status row and the
command fails (-1); with `modified` clear it sets `done` and succeeds. -/
theorem C9_quit_modified_guard (st : EdState) (wr : WriteRes)
    (hcmd : st.cmd.s = [113]) :
    (st.modified = true → exec_cmd st wr = (st, [TermOp.print 0 (st.h - 1) true MsgText.bufferModified], -1)) ∧
    (st.modified = false → exec_cmd st wr = ({ st with done := true }, [], 0)) := by
  constructor <;> intro hm <;> simp [exec_cmd, cmdchrcmp, hcmd, hm]

/-- C9 (witness): the guard applied to a concrete modified state with
command row `q`. -/
theorem C9_quit_modified_guard_witness :
    exec_cmd c9demo WriteRes.ok = (c9demo, [TermOp.print 0 (c9demo.h - 1) true MsgText.bufferModified], -1) :=
  (C9_quit_modified_guard c9demo WriteRes.ok rfl).1 rfl

/-- C10 (implicit): Enter in command-line mode on a command that is not
`q`/`w`/`wq` (bang and argument included) — such as the unknown command `x`
or an empty line — succeeds silently: `exec_cmd` returns the state unchanged
with no message and status 0, and the handler clears the status row, resets
the command row and returns to normal mode with the cursor restored. -/
theorem C10_unknown_command_success (st : EdState) (ev : TermEvent) (wr : WriteRes)
    (hkey : ev.key = TermKey.enter)
    (hq : cmdchrcmp st.cmd.s 113 = false)
    (hwc : cmdchrcmp st.cmd.s 119 = false)
    (hwq : cmdstrcmp st.cmd.s [119, 113] = false) :
    exec_cmd st wr = (st, [], 0) ∧
    key_command_line st ev wr = ({ st with mode := Mode.normal, cmd := ⟨[], st.cmd.tabs⟩, tx := st.storedtx }, [TermOp.clearRow (st.h - 1), TermOp.setCursor st.storedtx st.y]) := by
  constructor
  · simp [exec_cmd, hq, hwc, hwq]
  · simp [key_command_line, hkey, exec_cmd, hq, hwc, hwq]

/-- C10 (witness): the silent success applied to a concrete state whose
command row holds the unknown command `x`. -/
theorem C10_unknown_command_success_witness :
    exec_cmd c10demo WriteRes.ok = (c10demo, [], 0) ∧
    key_command_line c10demo ⟨TermKey.enter, 0⟩ WriteRes.ok = ({ c10demo with mode := Mode.normal, cmd := ⟨[], c10demo.cmd.tabs⟩, tx := c10demo.storedtx }, [TermOp.clearRow (c10demo.h - 1), TermOp.setCursor c10demo.storedtx c10demo.y]) :=
  C10_unknown_command_success c10demo ⟨TermKey.enter, 0⟩ WriteRes.ok rfl (by decide)
    (by decide) (by decide)

end Svi
